import Mathlib

/-!
# kona.go crawler: a shallow embedding of `crawler.go`

The crawler asks the image board for the number of posts matching a query,
then a goroutine walks the result pages and queues one work item per post,
and a pool of workers downloads every queued item whose file is not yet in the
destination folder.

Go strings and byte slices are modelled as lists of characters.  The outside
world (the remote server and the file system calls that may fail) is an
explicit `Env`; the destination directory is an explicit list of files.
Library calls (`regexp`, `filepath.Glob`, `gjson`, `strconv.Atoi`) are modelled
as far as the program uses them, on a Unix path syntax.
-/

namespace Kona

/-- Go `string`. -/
abbrev Str := List Char

/-! ## Library: regexp `.[a-z0-9]+$` -/

/-- The character class `[a-z0-9]`. -/
def isLowerAlnum (c : Char) : Bool :=
  ('a' ≤ c && c ≤ 'z') || ('0' ≤ c && c ≤ '9')

/-- Does `.[a-z0-9]+$` match starting at the head of the text?  The unescaped
`.` is any character but a newline, `[a-z0-9]+` is greedy and `$` is the end of
the text, so the whole remainder has to be a non-empty run of the class. -/
def extMatchHere : Str → Bool
  | [] => false
  | c :: rest => c != '\n' && !rest.isEmpty && rest.all isLowerAlnum

/-- The call `regexp.MustCompile(".[a-z0-9]+$").FindString(url)`: the text of the
leftmost match, or the empty string when there is none. -/
def FindString : Str → Str
  | [] => []
  | c :: rest => if extMatchHere (c :: rest) then c :: rest else FindString rest

/-! ## Library: `filepath.Glob` -/

/-- One term of a `filepath.Match` pattern. -/
inductive Term where
  | star
  | any
  | lit (c : Char)
  | cls (negated : Bool) (ranges : List (Char × Char))
  deriving DecidableEq, Repr

/-- The characters `filepath.Glob` treats as magic (Unix). -/
def isMagic (c : Char) : Bool :=
  c == '*' || c == '?' || c == '[' || c == '\\'

/-- The helper `getEsc` of `filepath.Match`: one (possibly escaped) character of a
class; the class may not end right after it. -/
def getEsc : Str → Option (Char × Str)
  | [] => none
  | '-' :: _ => none
  | ']' :: _ => none
  | '\\' :: c :: d :: rest => some (c, d :: rest)
  | '\\' :: _ => none
  | c :: d :: rest => some (c, d :: rest)
  | [_] => none

/-- The ranges of a character class, up to and including the closing `]`.
`fuel` bounds the number of ranges by the length of the text. -/
def parseRanges : Nat → Str → List (Char × Char) → Option (List (Char × Char) × Str)
  | 0, _, _ => none
  | fuel + 1, chunk, acc =>
    match chunk, acc with
    | ']' :: rest, _ :: _ => some (acc.reverse, rest)
    | _, _ =>
      match getEsc chunk with
      | none => none
      | some (lo, '-' :: rest) =>
        match getEsc rest with
        | none => none
        | some (hi, rest2) => parseRanges fuel rest2 ((lo, hi) :: acc)
      | some (lo, rest) => parseRanges fuel rest ((lo, lo) :: acc)

/-- A pattern as a list of terms; `none` is `ErrBadPattern`. -/
def parsePattern : Nat → Str → Option (List Term)
  | 0, _ => none
  | _ + 1, [] => some []
  | fuel + 1, '*' :: rest => (parsePattern fuel rest).map (Term.star :: ·)
  | fuel + 1, '?' :: rest => (parsePattern fuel rest).map (Term.any :: ·)
  | fuel + 1, '[' :: '^' :: rest =>
    match parseRanges (rest.length + 1) rest [] with
    | none => none
    | some (rs, rest2) => (parsePattern fuel rest2).map (Term.cls true rs :: ·)
  | fuel + 1, '[' :: rest =>
    match parseRanges (rest.length + 1) rest [] with
    | none => none
    | some (rs, rest2) => (parsePattern fuel rest2).map (Term.cls false rs :: ·)
  | _ + 1, ['\\'] => none
  | fuel + 1, '\\' :: c :: rest => (parsePattern fuel rest).map (Term.lit c :: ·)
  | fuel + 1, c :: rest => (parsePattern fuel rest).map (Term.lit c :: ·)

/-- The remainders of a name a `*` may leave: it swallows any run of characters
that are not the separator. -/
def starTails : Str → List Str
  | [] => [[]]
  | c :: n => (c :: n) :: (if c = '/' then [] else starTails n)

/-- Is the character in one of the ranges of a class? -/
def inRanges (c : Char) (rs : List (Char × Char)) : Bool :=
  rs.any (fun r => r.1 ≤ c && c ≤ r.2)

/-- The matcher of `filepath.Match` on a parsed pattern. -/
def matchTerms : List Term → Str → Bool
  | [], n => n.isEmpty
  | Term.star :: ts, n => (starTails n).any (fun m => matchTerms ts m)
  | Term.any :: ts, c :: n => c != '/' && matchTerms ts n
  | Term.lit a :: ts, c :: n => a == c && matchTerms ts n
  | Term.cls neg rs :: ts, c :: n => c != '/' && (inRanges c rs != neg) && matchTerms ts n
  | _ :: _, [] => false

/-! ## The world -/

/-- The part of `http.Response` the program uses: the bytes of the body as they
are delivered, and whether reading them to the end reports an error. -/
structure Response where
  body : Str
  readErr : Bool
  deriving DecidableEq, Repr

/-- The destination file system: the files by path, as the program spells the
path, with their contents.  Directories are not modelled. -/
abbrev FS := List (Str × Str)

/-- The type `http.Client`, as far as configured: its timeout in nanoseconds, zero
meaning none. -/
structure Client where
  Timeout : Int
  deriving DecidableEq, Repr

/-- The client `http.DefaultClient`. -/
def DefaultClient : Client := ⟨0⟩

/-- The outside world: what a GET of a URL through a client returns (`none` is an
error, a timeout included) and whether `os.Create` succeeds on a path. -/
structure Env where
  get : Client → Str → Option Response
  create : Str → Bool

/-- The package function `http.Get`: a GET through `http.DefaultClient`. -/
def httpGet (env : Env) (url : Str) : Option Response :=
  env.get DefaultClient url

/-- The call `filepath.Glob(pattern)` over the files of the model: the paths the
pattern matches, where `*` and `?` do not match the separator; an ill-formed
pattern gives the nil slice, as does a pattern no file matches.  The pattern
is matched as a whole against the path of every file as the program spells it:
directories, other spellings of a path and the split of the pattern at its
separators before it is parsed are not modelled. -/
def Glob (fs : FS) (pattern : Str) : List Str :=
  match parsePattern (pattern.length + 1) pattern with
  | none => []
  | some ts => (fs.map Prod.fst).filter (matchTerms ts)

/-- The effect of `os.Create` followed by `io.Copy` on the files: the file at
the path is created or truncated and holds the body. -/
def writeFile (fs : FS) (path : Str) (b : Str) : FS :=
  (path, b) :: fs.filter (fun f => f.1 != path)

/-! ## Library: gjson, for the path `#.key` -/

/-- The kinds of value gjson tells apart by the first character. -/
inductive JKind where
  | string
  | json
  | number
  | literal
  deriving DecidableEq, Repr

/-- A value as gjson finds it: its kind and its text.  The text of a string is
what stands between the quotes, escapes kept; the text of an object or array
is the squashed raw JSON, brackets included. -/
structure JVal where
  kind : JKind
  text : Str
  deriving DecidableEq, Repr

/-- The rest of a string after its opening quote: the text up to the closing
quote and what follows it; a backslash takes the next character with it.
`none` when the string is not closed. -/
def jsonString : Str → Option (Str × Str)
  | [] => none
  | '"' :: rest => some ([], rest)
  | '\\' :: c :: rest =>
    match jsonString rest with
    | some (s, r) => some ('\\' :: c :: s, r)
    | none => none
  | c :: rest =>
    match jsonString rest with
    | some (s, r) => some (c :: s, r)
    | none => none

/-- The helper `squash`, after the opening bracket: the text up to and including
the bracket that closes it and what follows.  Brackets of every kind are
counted together, brackets inside strings are not counted, and input that ends
early is taken whole. -/
def squash : Nat → Bool → Bool → Str → Str × Str
  | _, _, _, [] => ([], [])
  | d, true, true, c :: rest =>
    let r := squash d true false rest
    (c :: r.1, r.2)
  | d, true, false, c :: rest =>
    let r := squash d true (c == '\\') rest
    if c = '"' then
      let q := squash d false false rest
      (c :: q.1, q.2)
    else (c :: r.1, r.2)
  | d, false, _, c :: rest =>
    if c = '"' then
      let r := squash d true false rest
      (c :: r.1, r.2)
    else if c = '\x7b' ∨ c = '[' ∨ c = '(' then
      let r := squash (d + 1) false false rest
      (c :: r.1, r.2)
    else if c = '\x7d' ∨ c = ']' ∨ c = ')' then
      if d ≤ 1 then ([c], rest)
      else
        let r := squash (d - 1) false false rest
        (c :: r.1, r.2)
    else
      let r := squash d false false rest
      (c :: r.1, r.2)

/-- The characters that start a number. -/
def isNumberStart (c : Char) : Bool :=
  c == '+' || c == '-' || c.isDigit || c == 'I' || c == 'N'

/-- The characters that end the text of a number. -/
def isNumberEnd (c : Char) : Bool :=
  c.toNat ≤ 32 || c == ',' || c == ']' || c == '\x7d'

/-- What stands at the head of the input: no value (the character is skipped), a
string that is not closed, or a value and the input after it. -/
inductive Scan where
  | skip
  | fail
  | value (v : JVal) (rest : Str)
  deriving DecidableEq, Repr

/-- The switch on the first character that `parseArray`, `parseObject` and
`parseAny` share. -/
def scanValue : Str → Scan
  | [] => Scan.skip
  | c :: rest =>
    if c = '"' then
      match jsonString rest with
      | some (s, r) => Scan.value ⟨JKind.string, s⟩ r
      | none => Scan.fail
    else if c = '\x7b' ∨ c = '[' then
      Scan.value ⟨JKind.json, c :: (squash 1 false false rest).1⟩ (squash 1 false false rest).2
    else if c = 't' ∨ c = 'f' ∨ (c = 'n' ∧ (rest.head? = none ∨ rest.head? = some 'u')) then
      Scan.value ⟨JKind.literal, c :: rest.takeWhile Char.isLower⟩ (rest.dropWhile Char.isLower)
    else if isNumberStart c ∨ c = 'n' then
      Scan.value ⟨JKind.number, c :: rest.takeWhile (fun x => !isNumberEnd x)⟩
        (rest.dropWhile (fun x => !isNumberEnd x))
    else Scan.skip

/-- The first value in the input, skipping every character that starts none,
and the input after it (`parseAny`). -/
def firstValue : Str → Option (JVal × Str)
  | [] => none
  | c :: rest =>
    match scanValue (c :: rest) with
    | Scan.skip => firstValue rest
    | Scan.fail => none
    | Scan.value v r => some (v, r)

/-- The value of four hexadecimal digits, zero when they are not. -/
def hex4 (s : Str) : Nat :=
  let digit (c : Char) : Option Nat :=
    if c.isDigit then some (c.toNat - 48)
    else if 'a' ≤ c ∧ c ≤ 'f' then some (c.toNat - 87)
    else if 'A' ≤ c ∧ c ≤ 'F' then some (c.toNat - 55)
    else none
  match s.mapM digit with
  | some [a, b, c, d] => ((a * 16 + b) * 16 + c) * 16 + d
  | _ => 0

/-- The helper `unescape` on the text of a string: the escapes are replaced, and
the text ends at a control character or at an escape that is none. -/
def unescape : Nat → Str → Str
  | 0, _ => []
  | _ + 1, [] => []
  | fuel + 1, '\\' :: c :: rest =>
    if c = '\\' ∨ c = '/' ∨ c = '"' then c :: unescape fuel rest
    else if c = 'b' then Char.ofNat 8 :: unescape fuel rest
    else if c = 'f' then Char.ofNat 12 :: unescape fuel rest
    else if c = 'n' then '\n' :: unescape fuel rest
    else if c = 'r' then '\r' :: unescape fuel rest
    else if c = 't' then '\t' :: unescape fuel rest
    else if c = 'u' then
      if rest.length < 4 then []
      else
        let r := hex4 (rest.take 4)
        let rest1 := rest.drop 4
        if 0xD800 ≤ r ∧ r < 0xE000 then
          match rest1 with
          | '\\' :: 'u' :: rest2 =>
            if rest2.length < 4 then Char.ofNat 0xFFFD :: unescape fuel rest1
            else
              let r2 := hex4 (rest2.take 4)
              (if r < 0xDC00 ∧ 0xDC00 ≤ r2 ∧ r2 < 0xE000 then
                Char.ofNat (0x10000 + (r - 0xD800) * 1024 + (r2 - 0xDC00))
              else Char.ofNat 0xFFFD) :: unescape fuel (rest2.drop 4)
          | _ => Char.ofNat 0xFFFD :: unescape fuel rest1
        else Char.ofNat r :: unescape fuel rest1
    else []
  | _ + 1, ['\\'] => []
  | fuel + 1, c :: rest => if c.toNat < 32 then [] else c :: unescape fuel rest

/-- The text of a string or key as a Go string: unescaped when it holds a
backslash. -/
def unquote (s : Str) : Str :=
  if s.contains '\\' then unescape (s.length + 1) s else s

/-- Method `Result.String`. -/
def JVal.String (v : JVal) : Str :=
  match v.kind with
  | JKind.string => unquote v.text
  | JKind.json => v.text
  | JKind.number => v.text
  | JKind.literal =>
    match v.text.head? with
    | some 't' => "true".toList
    | some 'f' => "false".toList
    | _ => []

/-- The raw JSON of a value. -/
def JVal.raw (v : JVal) : Str :=
  match v.kind with
  | JKind.string => '"' :: v.text ++ ['"']
  | _ => v.text

/-- The next key of an object: the input is skipped up to a quote, where the key
is read, or up to a closing brace, where the object ends. -/
def nextKey : Str → Option (Str × Str)
  | [] => none
  | c :: rest =>
    if c = '"' then jsonString rest
    else if c = '\x7d' then none
    else nextKey rest

/-- The loop of `parseObject` for a path of one plain key, after the opening
brace: the value of the first member with that key. -/
def objGet (key : Str) : Nat → Str → Option JVal
  | 0, _ => none
  | fuel + 1, s =>
    match nextKey s with
    | none => none
    | some (k, afterKey) =>
      match firstValue afterKey with
      | none => none
      | some (v, rest) => if unquote k = key then some v else objGet key fuel rest

/-- The input after the first opening brace or bracket, with that character. -/
def toBracket : Str → Option (Char × Str)
  | [] => none
  | c :: rest => if c = '\x7b' ∨ c = '[' then some (c, rest) else toBracket rest

/-- The call `Get(json, key)` for a plain key: the member of the first object in
the text; nothing when an array comes first or no object at all. -/
def getPlain (key : Str) (json : Str) : Option JVal :=
  match toBracket json with
  | some ('\x7b', rest) => objGet key (rest.length + 1) rest
  | _ => none

/-- The loop of `parseArray` for `#.key`, after the opening bracket: the input at
the start of every round, one round per value and a last one that meets the
closing bracket or the end of the input.  `none` when a string of the array is
not closed. -/
def arrayLog : Nat → Bool → Str → Option (List Str)
  | 0, _, _ => none
  | fuel + 1, start, s =>
    let log := if start then [s] else []
    match s with
    | [] => some log
    | c :: rest =>
      if c = ']' then some log
      else
        match scanValue (c :: rest) with
        | Scan.skip => (arrayLog fuel false rest).map (log ++ ·)
        | Scan.fail => none
        | Scan.value _ r => (arrayLog fuel true r).map (log ++ ·)

/-- What a logged position of the array gives to the result: after white space,
unless the closing bracket or the end stands there, the first value from there
on, asked for the key. -/
def elementGet (key : Str) (s : Str) : Option JVal :=
  match s.dropWhile (fun c => c == ' ' || c == '\t' || c == '\r' || c == '\n') with
  | [] => none
  | c :: rest =>
    if c = ']' then none
    else
      match firstValue (c :: rest) with
      | none => none
      | some (v, _) => getPlain key v.raw

/-- The switch on the first character in `Result.Array`: a value and the input
after it, or `none` where the character is skipped.  A string that is not
closed takes the rest of the input. -/
def scanItem : Str → Option (JVal × Str)
  | [] => none
  | c :: rest =>
    if c = '"' then
      match jsonString rest with
      | some (s, r) => some (⟨JKind.string, s⟩, r)
      | none => some (⟨JKind.string, rest⟩, [])
    else if c = '\x7b' ∨ c = '[' then
      some (⟨JKind.json, c :: (squash 1 false false rest).1⟩, (squash 1 false false rest).2)
    else if c = 't' ∨ c = 'f' ∨ c = 'n' then
      some (⟨JKind.literal, c :: rest.takeWhile Char.isLower⟩, rest.dropWhile Char.isLower)
    else if c.isDigit ∨ c = '-' then
      some (⟨JKind.number, c :: rest.takeWhile (fun x => !isNumberEnd x)⟩,
        rest.dropWhile (fun x => !isNumberEnd x))
    else none

/-- The values of an array, after the opening bracket (`Result.Array` on the raw
JSON of an array): the values up to the first closing bracket or brace. -/
def arrayItems : Nat → Str → List JVal
  | 0, _ => []
  | _ + 1, [] => []
  | fuel + 1, c :: rest =>
    if c = ']' ∨ c = '\x7d' then []
    else
      match scanItem (c :: rest) with
      | none => arrayItems fuel rest
      | some (v, r) => v :: arrayItems fuel r

/-- The elements of a result as `Result.Array` gives them: none for null, the
values of an array, the result itself otherwise. -/
def resultArray (v : JVal) : List JVal :=
  if v.kind = JKind.literal ∧ v.text.head? = some 'n' then []
  else if v.kind = JKind.json ∧ v.text.head? = some '[' then
    arrayItems v.text.length (v.text.drop 1)
  else [v]

/-- The values `gjson.Get(json, "#." ++ key).Array()` holds, for a plain member
name as key.  The text is skipped up to the first opening bracket or brace.
After a bracket, every element of the array is asked for the key, the raw JSON
of the answers is put together as a new array, and the values of that array are
the result.  After a brace, the member `#` of the object is asked for the key.
Without either there is no result. -/
def gjsonValues (json key : Str) : List JVal :=
  match toBracket json with
  | none => []
  | some (c, rest) =>
    if c = '[' then
      match arrayLog (rest.length + 1) true rest with
      | none => []
      | some log =>
        let raws := (log.filterMap (elementGet key)).map JVal.raw
        let jsons := List.intercalate [','] raws ++ [']']
        arrayItems (jsons.length + 1) jsons
    else
      match objGet "#".toList (rest.length + 1) rest with
      | none => []
      | some v =>
        if v.kind = JKind.json ∧ v.text.head? = some '\x7b' then
          match objGet key v.text.length (v.text.drop 1) with
          | none => []
          | some w => resultArray w
        else []

/-- The array `gjson.GetManyBytes(json, "#." ++ f)` yields for the path, as the
strings `Result.String` gives for its elements. -/
def gjsonArray (json : Str) (f : Str) : List Str :=
  (gjsonValues json f).map JVal.String

/-! ## Library: the count document -/

/-- Does `count="(\d+)"` match at the head of the text?  Gives the digits. -/
def countMatchHere (s : Str) : Option Str :=
  if "count=\"".toList.isPrefixOf s then
    let rest := s.drop 7
    let ds := rest.takeWhile Char.isDigit
    if !ds.isEmpty && (rest.drop ds.length).head? == some '"' then some ds else none
  else none

/-- The first submatch of the leftmost match of `count="(\d+)"`; `none` when the
expression does not match (`FindSubmatch` returns nil). -/
def findCount : Str → Option Str
  | [] => none
  | c :: s =>
    match countMatchHere (c :: s) with
    | some ds => some ds
    | none => findCount s

/-- The largest Go `int` (64 bit). -/
def maxInt : Int := 2 ^ 63 - 1

/-- The call `strconv.Atoi` on a run of digits, with the error dropped: the value,
or the largest `int` when it is out of range. -/
def atoi (ds : Str) : Int :=
  let v : Nat := ds.foldl (fun a d => 10 * a + (d.toNat - 48)) 0
  if (v : Int) ≤ maxInt then v else maxInt

/-! ## The crawler -/

/-- The URL prefix of the image board. -/
def baseURL : Str := "https://konachan.com/post".toList

/-- A request: the URL and the metadata bag. -/
structure httpRequest where
  url : Str
  info : List (Str × Str)
  deriving DecidableEq, Repr

/-- A response with the URL and metadata of its request. -/
structure httpResponse where
  url : Str
  resp : Response
  info : List (Str × Str)
  deriving DecidableEq, Repr

/-- The crawler: the fields of the struct `Crawler` but the progress bar, which
only counts the tokens. -/
structure Crawler where
  query : Str
  maxWorkers : Int
  bufferSize : Int
  format : Str
  destinationFolder : Str
  httpClient : Client
  deriving DecidableEq, Repr

/-- Map lookup `info[key]`, the empty string when the key is absent. -/
def infoGet (info : List (Str × Str)) (key : Str) : Str :=
  match info with
  | [] => []
  | (k, v) :: rest => if k = key then v else infoGet rest key

/-- Function `newCrawler`; `mkdirOk` tells whether `os.MkdirAll` succeeds, `none` is
the panic when it does not. -/
def newCrawler (mkdirOk : Bool) (query : Str) (maxWorkers bufferSize : Int) (timeOut : Int)
    (format destination : Str) : Option Crawler :=
  if mkdirOk then
    some ⟨query, maxWorkers, bufferSize, format ++ "_url".toList, destination, ⟨timeOut⟩⟩
  else none

/-- Method `Crawler.fetch`: `http.Get(request.url)`; `none` is the panic on a failed
GET. -/
def Crawler.fetch (_c : Crawler) (env : Env) (request : httpRequest) : Option httpResponse :=
  match httpGet env request.url with
  | none => none
  | some resp => some ⟨request.url, resp, request.info⟩

/-- Outcome of `Crawler.saver`. -/
inductive Saved where
  | ok (fs : FS)
  | panicked (fs : FS)
  deriving DecidableEq, Repr

/-- Method `Crawler.saver`: create the file, copy the body into it, return true; a
failed create panics with the files untouched, a failed copy panics with the
file created. -/
def Crawler.saver (_c : Crawler) (env : Env) (fs : FS) (response : httpResponse)
    (filePath : Str) : Saved :=
  if env.create filePath then
    if response.resp.readErr then Saved.panicked (writeFile fs filePath response.resp.body)
    else Saved.ok (writeFile fs filePath response.resp.body)
  else Saved.panicked fs

/-- The URL of the count request. -/
def countURL (c : Crawler) : Str :=
  baseURL ++ ".xml?tags=".toList ++ c.query

/-- The URL of a result page. -/
def pageURL (c : Crawler) (page : Nat) : Str :=
  baseURL ++ ".json?tags=".toList ++ c.query ++ "&page=".toList ++ (Nat.repr page).toList

/-- The synchronous part of `getURLs`: the count request and its parse.  `none`
is a panic (failed GET, or indexing the nil submatch). -/
def Crawler.getURLsCount (c : Crawler) (env : Env) : Option Int :=
  match c.fetch env ⟨countURL c, []⟩ with
  | none => none
  | some response =>
    match findCount response.resp.body with
    | none => none
    | some ds => some (atoi ds)

/-- The sends of the inner loop of `getURLs` for one page: one request per URL,
paired with `md5[i]`; the flag is false when `md5[i]` is out of range, where the
loop panics after the sends made so far. -/
def pageItems : List Str → List Str → List httpRequest × Bool
  | [], _ => ([], true)
  | _ :: _, [] => ([], false)
  | u :: us, m :: ms =>
    let r := pageItems us ms
    (⟨u, [("md5".toList, m)]⟩ :: r.1, r.2)

/-- What one round of the page loop finds. -/
inductive PageOutcome where
  | netError
  | endOfResults
  | items (xs : List httpRequest) (completes : Bool)
  deriving DecidableEq, Repr

/-- One round of the page loop of `getURLs`, up to the sends: fetch the page,
read it, extract the two arrays, test the first for emptiness. -/
def Crawler.getURLsPage (c : Crawler) (env : Env) (page : Nat) : PageOutcome :=
  match c.fetch env ⟨pageURL c page, []⟩ with
  | none => PageOutcome.netError
  | some response =>
    let md5 := gjsonArray response.resp.body "md5".toList
    let imgUrls := gjsonArray response.resp.body c.format
    if md5.length = 0 then PageOutcome.endOfResults
    else
      let r := pageItems imgUrls md5
      PageOutcome.items r.1 r.2

/-- The observable trace of the enumerating goroutine. -/
structure EnumTrace where
  sent : List httpRequest
  requested : List Nat
  closed : Bool
  panicked : Bool
  deriving DecidableEq, Repr

/-- The goroutine of `getURLs` run for at most `fuel` rounds from a page number,
with a consumer that always makes room on the channel: the requests sent, the
pages requested, whether the channel was closed, whether it panicked.  Out of
fuel the goroutine is still running: nothing more is sent, nothing closed. -/
def Crawler.getURLsLoop (c : Crawler) (env : Env) : Nat → Nat → EnumTrace
  | 0, _ => ⟨[], [], false, false⟩
  | fuel + 1, page =>
    match c.getURLsPage env page with
    | PageOutcome.netError => ⟨[], [page], false, true⟩
    | PageOutcome.endOfResults => ⟨[], [page], true, false⟩
    | PageOutcome.items xs false => ⟨xs, [page], false, true⟩
    | PageOutcome.items xs true =>
      let r := c.getURLsLoop env fuel (page + 1)
      ⟨xs ++ r.sent, page :: r.requested, r.closed, r.panicked⟩

/-- The file name stem of a request: `destinationFolder/md5`. -/
def Crawler.fileBasename (c : Crawler) (request : httpRequest) : Str :=
  c.destinationFolder ++ "/".toList ++ infoGet request.info "md5".toList

/-- The dedup test of a worker: `filepath.Glob(fileBasename + ".*")` is not nil. -/
def Crawler.alreadyThere (c : Crawler) (fs : FS) (request : httpRequest) : Bool :=
  !(Glob fs (c.fileBasename request ++ ".*".toList)).isEmpty

/-- The path a worker saves a download to: `fileBasename + ext`. -/
def Crawler.targetPath (c : Crawler) (request : httpRequest) : Str :=
  c.fileBasename request ++ FindString request.url

/-- What one iteration of a worker's loop does. -/
structure Iteration where
  token : Option Bool
  fetched : List Str
  fs : FS
  deriving DecidableEq, Repr

/-- One iteration of the worker loop of `asyncDownload` on a received request,
run without interruption: the token sent on the results channel (`none` when
the worker panics first), the URLs passed to `fetch`, the files afterwards. -/
def Crawler.asyncDownloadItem (c : Crawler) (env : Env) (fs : FS) (request : httpRequest) :
    Iteration :=
  if c.alreadyThere fs request then ⟨some false, [], fs⟩
  else
    match c.fetch env request with
    | none => ⟨none, [request.url], fs⟩
    | some response =>
      match c.saver env fs response (c.targetPath request) with
      | Saved.ok fs2 => ⟨some true, [request.url], fs2⟩
      | Saved.panicked fs2 => ⟨none, [request.url], fs2⟩

/-! ## The worker pool as a transition system -/

/-- Where a worker goroutine of `asyncDownload` stands: at the receive of
`range requests`; holding a received request, before the glob; inside
`c.fetch(request)`; or out of the loop, after `wg.Done()`. -/
inductive Worker where
  | idle
  | holding (request : httpRequest)
  | fetching (request : httpRequest)
  | exited
  deriving DecidableEq, Repr

/-- The state around the pool: the work channel (`requests`: its buffer and
whether it is closed), the workers, the results channel (`ch`: every token sent
on it so far, in order, and whether it is closed), the files, and whether the
process has panicked.  `sent` records every request sent on the work channel
so far; `started` tells whether `asyncDownload` has been called.  The receiver
of the results channel is not modelled: a send on `ch` never blocks. -/
structure Pool where
  requests : List httpRequest
  requestsClosed : Bool
  sent : List httpRequest
  started : Bool
  workers : List Worker
  ch : List Bool
  chClosed : Bool
  fs : FS
  panicked : Bool
  deriving DecidableEq, Repr

/-- The atomic steps around the pool.  `start` is the call of `asyncDownload`.
The producer of the work channel sends into the buffer (`send`), hands a
request to a worker waiting at the receive (`handoff`), or closes the channel
(`closeIn`).  Worker `i` receives from the buffer (`recv`), leaves its loop on
the closed and drained channel (`quit`), runs the glob and either sends false or
enters `fetch` (`check`), or gets the response and runs `saver` (`finish`).
`closeOut` is `close(ch)` after `wg.Wait()`. -/
inductive PoolAction where
  | start
  | send (x : httpRequest)
  | handoff (x : httpRequest) (i : Nat)
  | closeIn
  | recv (i : Nat)
  | quit (i : Nat)
  | check (i : Nat)
  | finish (i : Nat)
  | closeOut
  deriving DecidableEq, Repr

/-- The process panics. -/
def Pool.panic (p : Pool) : Pool := { p with panicked := true }

/-- The state before anything ran, over the given files. -/
def Pool.init (fs : FS) : Pool := ⟨[], false, [], false, [], [], false, fs, false⟩

/-- One step around the pool; `none` when the step is not enabled.  A panicked
process takes no step.  Making a channel of negative size, a negative
`wg.Add`, a send on a closed channel and a second close panic. -/
def Pool.step (c : Crawler) (env : Env) (p : Pool) (a : PoolAction) : Option Pool :=
  if p.panicked then none
  else
    match a with
    | PoolAction.start =>
      if p.started then none
      else if c.bufferSize < 0 ∨ c.maxWorkers < 0 then some p.panic
      else some { p with started := true,
                         workers := List.replicate c.maxWorkers.toNat Worker.idle }
    | PoolAction.send x =>
      if p.requestsClosed then some p.panic
      else if p.requests.length < c.bufferSize.toNat then
        some { p with requests := p.requests ++ [x], sent := p.sent ++ [x] }
      else none
    | PoolAction.handoff x i =>
      if p.requestsClosed then none
      else
        match p.workers[i]?, p.requests with
        | some Worker.idle, [] =>
          some { p with workers := p.workers.set i (Worker.holding x), sent := p.sent ++ [x] }
        | _, _ => none
    | PoolAction.closeIn =>
      if p.requestsClosed then some p.panic else some { p with requestsClosed := true }
    | PoolAction.recv i =>
      match p.workers[i]?, p.requests with
      | some Worker.idle, x :: rest =>
        some { p with requests := rest, workers := p.workers.set i (Worker.holding x) }
      | _, _ => none
    | PoolAction.quit i =>
      match p.workers[i]?, p.requests with
      | some Worker.idle, [] =>
        if p.requestsClosed then some { p with workers := p.workers.set i Worker.exited }
        else none
      | _, _ => none
    | PoolAction.check i =>
      match p.workers[i]? with
      | some (Worker.holding r) =>
        if c.alreadyThere p.fs r then
          some { p with ch := p.ch ++ [false], workers := p.workers.set i Worker.idle }
        else some { p with workers := p.workers.set i (Worker.fetching r) }
      | _ => none
    | PoolAction.finish i =>
      match p.workers[i]? with
      | some (Worker.fetching r) =>
        match c.fetch env r with
        | none => some p.panic
        | some response =>
          match c.saver env p.fs response (c.targetPath r) with
          | Saved.ok fs2 =>
            some { p with fs := fs2, ch := p.ch ++ [true],
                          workers := p.workers.set i Worker.idle }
          | Saved.panicked fs2 => some { p with fs := fs2, panicked := true }
      | _ => none
    | PoolAction.closeOut =>
      if p.started && !p.chClosed && p.workers.all (fun w => w == Worker.exited) then
        some { p with chClosed := true }
      else none

/-- A run: the steps taken one after the other. -/
def Pool.run (c : Crawler) (env : Env) : List PoolAction → Pool → Option Pool
  | [], p => some p
  | a :: rest, p =>
    match Pool.step c env p a with
    | none => none
    | some q => Pool.run c env rest q

/-- Is the worker between its receive and its send: does it hold a request whose
token is not sent yet? -/
def Worker.busy : Worker → Bool
  | Worker.holding _ => true
  | Worker.fetching _ => true
  | _ => false

/-- Is the worker inside `fetch`? -/
def Worker.isFetching : Worker → Bool
  | Worker.fetching _ => true
  | _ => false

/-! ## The whole program as a transition system -/

/-- Where the main goroutine stands: before `getURLs`; inside the count fetch;
back in `start` with the count, the enumerator spawned; receiving tokens after
`asyncDownload`; returned from `main`. -/
inductive MainPc where
  | init
  | counting
  | counted (total : Int)
  | draining
  | returned
  deriving DecidableEq, Repr

/-- Where the goroutine of `getURLs` stands: not spawned; about to request a
page; inside the fetch of a page; sending the requests of a page (those still
to send, and whether the inner loop then completes); returned. -/
inductive EnumPc where
  | unborn
  | atPage (page : Nat)
  | fetching (page : Nat)
  | emitting (page : Nat) (pending : List httpRequest) (completes : Bool)
  | done
  deriving DecidableEq, Repr

/-- The state of the process: the goroutines, the pool with both channels and the
files, the result pages requested so far, and the exit status once the process
has ended: 0 after `os.Exit(0)` or the return of `main`, 2 after a panic. -/
structure Sys where
  main : MainPc
  enum : EnumPc
  pool : Pool
  pages : List Nat
  exit : Option Nat
  deriving DecidableEq, Repr

/-- The steps of the process: the next step of the main goroutine, the next step
of the enumerator (a send goes to the buffer or to the given waiting worker),
or a step of a worker or of the closing goroutine. -/
inductive SysAction where
  | main
  | enum (target : Option Nat)
  | worker (a : PoolAction)
  deriving DecidableEq, Repr

/-- The exit status of a Go program that ends by a panic. -/
def panicStatus : Nat := 2

/-- The process panics: it ends with the status of a panic. -/
def Sys.panic (s : Sys) : Sys := { s with pool := s.pool.panic, exit := some panicStatus }

/-- The process after a step around the pool: a panic of that step ends it. -/
def Sys.settle (s : Sys) : Sys :=
  if s.pool.panicked then { s with exit := some panicStatus } else s

/-- The state at the call of `start`, over the given files. -/
def Sys.init (fs : FS) : Sys := ⟨MainPc.init, EnumPc.unborn, Pool.init fs, [], none⟩

/-- The pool steps that belong to the workers and the closing goroutine. -/
def PoolAction.byWorker : PoolAction → Bool
  | PoolAction.recv _ => true
  | PoolAction.quit _ => true
  | PoolAction.check _ => true
  | PoolAction.finish _ => true
  | PoolAction.closeOut => true
  | _ => false

/-- One step of the process; `none` when the step is not enabled.  After a
panic or an exit nothing runs. -/
def Sys.step (c : Crawler) (env : Env) (s : Sys) (a : SysAction) : Option Sys :=
  if s.pool.panicked || s.exit.isSome then none
  else
    match a with
    | SysAction.main =>
      match s.main with
      | MainPc.init =>
        if c.bufferSize < 0 then some s.panic else some { s with main := MainPc.counting }
      | MainPc.counting =>
        match c.getURLsCount env with
        | none => some s.panic
        | some total => some { s with main := MainPc.counted total, enum := EnumPc.atPage 1 }
      | MainPc.counted total =>
        if total ≤ 0 then some { s with exit := some 0 }
        else
          (Pool.step c env s.pool PoolAction.start).map
            (fun q => Sys.settle { s with main := MainPc.draining, pool := q })
      | MainPc.draining =>
        if s.pool.chClosed then some { s with main := MainPc.returned, exit := some 0 }
        else none
      | MainPc.returned => none
    | SysAction.enum target =>
      match s.enum with
      | EnumPc.unborn => none
      | EnumPc.done => none
      | EnumPc.atPage page =>
        some { s with enum := EnumPc.fetching page, pages := s.pages ++ [page] }
      | EnumPc.fetching page =>
        match c.getURLsPage env page with
        | PageOutcome.netError => some s.panic
        | PageOutcome.endOfResults =>
          (Pool.step c env s.pool PoolAction.closeIn).map
            (fun q => Sys.settle { s with enum := EnumPc.done, pool := q })
        | PageOutcome.items xs completes =>
          some { s with enum := EnumPc.emitting page xs completes }
      | EnumPc.emitting page [] completes =>
        if completes then some { s with enum := EnumPc.atPage (page + 1) } else some s.panic
      | EnumPc.emitting page (x :: rest) completes =>
        (Pool.step c env s.pool
            (match target with
             | none => PoolAction.send x
             | some i => PoolAction.handoff x i)).map
          (fun q => Sys.settle { s with enum := EnumPc.emitting page rest completes, pool := q })
    | SysAction.worker a =>
      if a.byWorker then
        (Pool.step c env s.pool a).map (fun q => Sys.settle { s with pool := q })
      else none

/-- A run of the process. -/
def Sys.run (c : Crawler) (env : Env) : List SysAction → Sys → Option Sys
  | [], s => some s
  | a :: rest, s =>
    match Sys.step c env s a with
    | none => none
    | some t => Sys.run c env rest t

/-- The number of calls of `fetch` in progress: the count fetch of the main
goroutine, the page fetch of the enumerator, the downloads of the workers. -/
def Sys.fetchesInProgress (s : Sys) : Nat :=
  (if s.main = MainPc.counting then 1 else 0)
    + (match s.enum with
       | EnumPc.fetching _ => 1
       | _ => 0)
    + s.pool.workers.countP Worker.isFetching

/-! ## The specification's words -/

/-- The trailing dot-suffix of a URL in the words of the specification: its last
`.` and the characters after it (nothing when the URL has no `.`). -/
def trailingDotSuffix : Str → Str
  | [] => []
  | c :: rest =>
    if rest.contains '.' then trailingDotSuffix rest
    else if c = '.' then c :: rest else []

/-- The work items of one result page in the words of the specification: the
download URL and the content hash of the same index, in index order. -/
def workItems (downloadURLs contentHashes : List Str) : List httpRequest :=
  List.zipWith (fun u m => ⟨u, [("md5".toList, m)]⟩) downloadURLs contentHashes

/-- The work items of the `n` pages from page `p` on, in page order. -/
def pagesItems (downloadURLs contentHashes : Nat → List Str) : Nat → Nat → List httpRequest
  | _, 0 => []
  | p, n + 1 =>
    workItems (downloadURLs p) (contentHashes p)
      ++ pagesItems downloadURLs contentHashes (p + 1) n

/-! ## Invariants -/

/-- The invariant of the pool over the files `fs0` it started from: every request
sent on the work channel is buffered, held by a worker, or answered by one
token; the results channel is closed only by a started pool whose workers have
all left; a worker leaves only on the closed and drained work channel; a
started pool has `maxWorkers` workers; before the start there is no worker, no
token is sent and the files are untouched. -/
structure PoolInv (c : Crawler) (fs0 : FS) (p : Pool) : Prop where
  count : p.ch.length + p.workers.countP Worker.busy + p.requests.length = p.sent.length
  closedOut : p.chClosed = true → p.started = true ∧ ∀ w ∈ p.workers, w = Worker.exited
  exitedIn : ∀ w ∈ p.workers, w = Worker.exited → p.requestsClosed = true ∧ p.requests = []
  size : p.started = true → p.workers.length = c.maxWorkers.toNat
  fresh : p.started = false → p.workers = [] ∧ p.ch = [] ∧ p.fs = fs0 ∧ p.chClosed = false

/-- The invariant of the process over the files `fs0` it started from: the pool
invariant; the enumerator is spawned only after the count fetch; the pool is
not started before `start` has a positive count; the process has ended with
the status of a panic exactly when it panicked, and with status 0 otherwise. -/
structure SysInv (c : Crawler) (fs0 : FS) (s : Sys) : Prop where
  pool : PoolInv c fs0 s.pool
  early : (s.main = MainPc.init ∨ s.main = MainPc.counting) → s.enum = EnumPc.unborn
  unstarted : (s.main = MainPc.init ∨ s.main = MainPc.counting ∨ ∃ t, s.main = MainPc.counted t) →
    s.pool.started = false
  exitCode : ∀ code, s.exit = some code →
    (code = 0 ∧ s.pool.panicked = false) ∨ (code = panicStatus ∧ s.pool.panicked = true)
  panicExit : s.pool.panicked = true → s.exit = some panicStatus

/-- The requests the page loop of `getURLs` sends for a page. -/
def Crawler.pageSends (c : Crawler) (env : Env) (page : Nat) : List httpRequest :=
  match c.getURLsPage env page with
  | PageOutcome.items xs _ => xs
  | _ => []

/-- The requests the page loop sends for the pages `1..n`, in order. -/
def Crawler.sendsUpTo (c : Crawler) (env : Env) : Nat → List httpRequest
  | 0 => []
  | n + 1 => c.sendsUpTo env n ++ c.pageSends env (n + 1)

/-- The page loop gets past each of the pages `1..n`: each has a non-empty
content-hash sequence and its inner loop completes. -/
def Crawler.passes (c : Crawler) (env : Env) (n : Nat) : Prop :=
  ∀ j, 1 ≤ j → j ≤ n → ∃ xs, c.getURLsPage env j = PageOutcome.items xs true

/-- The invariant tying the enumerator goroutine to the work channel: at page
`p` the pages before it were passed and exactly their requests were sent;
while the requests of page `p` are being sent, those sent and those pending make
up the requests of the pages up to `p`; the channel is closed only by the
enumerator, on the first page with an empty content-hash sequence. -/
def EnumInv (c : Crawler) (env : Env) (s : Sys) : Prop :=
  match s.enum with
  | EnumPc.unborn => s.pool.sent = [] ∧ s.pages = [] ∧ s.pool.requestsClosed = false
  | EnumPc.atPage p =>
    1 ≤ p ∧ c.passes env (p - 1) ∧ s.pool.sent = c.sendsUpTo env (p - 1)
      ∧ s.pages = List.range' 1 (p - 1) ∧ s.pool.requestsClosed = false
  | EnumPc.fetching p =>
    1 ≤ p ∧ c.passes env (p - 1) ∧ s.pool.sent = c.sendsUpTo env (p - 1)
      ∧ s.pages = List.range' 1 p ∧ s.pool.requestsClosed = false
  | EnumPc.emitting p pending b =>
    1 ≤ p ∧ c.passes env (p - 1)
      ∧ (∃ xs, c.getURLsPage env p = PageOutcome.items xs b
          ∧ s.pool.sent ++ pending = c.sendsUpTo env (p - 1) ++ xs)
      ∧ s.pages = List.range' 1 p ∧ s.pool.requestsClosed = false
  | EnumPc.done =>
    ∃ p, 1 ≤ p ∧ c.passes env (p - 1) ∧ c.getURLsPage env p = PageOutcome.endOfResults
      ∧ s.pool.sent = c.sendsUpTo env (p - 1) ∧ s.pages = List.range' 1 p
      ∧ s.pool.requestsClosed = true


/-- The enumerator goroutine stands where it panics: inside the fetch of a page
whose GET fails, or after the sends of a page whose inner loop does not
complete, at the index out of range. -/
def EnumPanic (c : Crawler) (env : Env) (s : Sys) : Prop :=
  (∃ p, s.enum = EnumPc.fetching p ∧ c.getURLsPage env p = PageOutcome.netError)
    ∨ (∃ p, s.enum = EnumPc.emitting p [] false)

/-- While `start` holds the count and has gone no further, a panic of the process
is a panic of the enumerator goroutine. -/
def CountedInv (c : Crawler) (env : Env) (s : Sys) : Prop :=
  ∀ t, s.main = MainPc.counted t → s.pool.panicked = true → EnumPanic c env s

/-! ## Concrete scenarios -/

/-- The state a run of the pool ends in (the state it started from when a step of
the run is not enabled). -/
def Pool.runD (c : Crawler) (env : Env) (acts : List PoolAction) (p : Pool) : Pool :=
  (Pool.run c env acts p).getD p

/-- The state a run of the process ends in (the state it started from when a step
of the run is not enabled). -/
def Sys.runD (c : Crawler) (env : Env) (acts : List SysAction) (s : Sys) : Sys :=
  (Sys.run c env acts s).getD s

/-- A crawler with the default buffer size, format and timeout over the given
destination folder and number of workers. -/
def exCrawler (destination : String) (workers : Int) : Crawler :=
  ⟨"cat+rating:safe".toList, workers, 64, "file_url".toList, destination.toList,
    ⟨120000000000⟩⟩

/-- A world in which every GET returns the given body, read without error, and
every file can be created. -/
def exEnv (body : String) : Env :=
  ⟨fun _ _ => some ⟨body.toList, false⟩, fun _ => true⟩

/-- A work item. -/
def exItem (url md5 : String) : httpRequest :=
  ⟨url.toList, [("md5".toList, md5.toList)]⟩

/-- The JSON text of a post with a content hash and a file URL. -/
def exPost (md5 url : String) : Str :=
  ("\x7b\"md5\":\"" ++ md5 ++ "\",\"file_url\":\"" ++ url ++ "\"\x7d").toList

/-- The JSON text of a post with a content hash and no file URL. -/
def exPostNoUrl (md5 : String) : Str :=
  ("\x7b\"id\":7,\"md5\":\"" ++ md5 ++ "\"\x7d").toList

/-- The JSON text of a result page: the array of its posts. -/
def exPage (posts : List Str) : Str :=
  '[' :: List.intercalate [','] posts ++ [']']

/-- A world serving a count document and result pages: page `i + 1` is entry `i`
of the list, and every other URL returns image data.  Every file can be
created. -/
def exSite (c : Crawler) (count : String) (pages : List Response) : Env :=
  ⟨fun _ url =>
      if url = countURL c then some ⟨count.toList, false⟩
      else
        match (List.range pages.length).find? (fun i => url = pageURL c (i + 1)) with
        | some i => pages[i]?
        | none => some ⟨"image".toList, false⟩,
    fun _ => true⟩

/-- A world whose first result page is the given response and whose every other
URL returns an empty list of posts. -/
def exOnePage (c : Crawler) (page : Response) : Env :=
  ⟨fun _ url => if url = pageURL c 1 then some page else some ⟨exPage [], false⟩,
    fun _ => true⟩

/-- The response the world gives for a result page (an empty body when the GET
fails). -/
def pageOf (c : Crawler) (env : Env) (p : Nat) : Response :=
  (httpGet env (pageURL c p)).getD ⟨[], false⟩

/-- A run of a pool of one worker over two requests, the second already
downloaded: both are queued, the channel is closed, the worker downloads the
first, skips the second and leaves, and the results channel is closed. -/
def exPoolRun : List PoolAction :=
  [PoolAction.start, PoolAction.send (exItem "http://h/1.jpg" "a1"),
    PoolAction.send (exItem "http://h/2.png" "b2"), PoolAction.closeIn,
    PoolAction.recv 0, PoolAction.check 0, PoolAction.finish 0,
    PoolAction.recv 0, PoolAction.check 0, PoolAction.quit 0, PoolAction.closeOut]

/-- A site reporting no post for the query although its first result page
holds one. -/
def exZeroSite : Env :=
  exSite (exCrawler "images" 2) "<posts count=\"0\" offset=\"0\"/>"
    [⟨exPage [exPost "a1" "http://h/1.jpg"], false⟩, ⟨exPage [], false⟩]

/-- A site reporting no post for the query, with an empty first result page. -/
def exEmptySite : Env :=
  exSite (exCrawler "images" 2) "<posts count=\"0\" offset=\"0\"/>" [⟨exPage [], false⟩]

/-- A site with one post on its first result page. -/
def exOneSite (workers : Int) : Env :=
  exSite (exCrawler "images" workers) "<posts count=\"1\" offset=\"0\"/>"
    [⟨exPage [exPost "a1" "http://h/1.jpg"], false⟩, ⟨exPage [], false⟩]

/-- A run over a zero count: the count is fetched and the enumerator spawned;
the enumerator requests page 1, reads it and queues its request; then `start`
exits. -/
def exZeroRun : List SysAction :=
  [SysAction.main, SysAction.main, SysAction.enum none, SysAction.enum none,
    SysAction.enum none, SysAction.main]

/-- A run over a zero count and an empty first page: the count is fetched and the
enumerator spawned; the enumerator requests page 1, reads it and closes the
work channel; then `start` exits. -/
def exEmptyRun : List SysAction :=
  [SysAction.main, SysAction.main, SysAction.enum none, SysAction.enum none, SysAction.main]

/-- A run of one worker: count, pool start, page 1 requested, read and queued,
page 2 requested; the worker receives the request, finds no file and enters
`fetch`. -/
def exBusyRun : List SysAction :=
  [SysAction.main, SysAction.main, SysAction.main, SysAction.enum none, SysAction.enum none,
    SysAction.enum none, SysAction.enum none, SysAction.enum none,
    SysAction.worker (PoolAction.recv 0), SysAction.worker (PoolAction.check 0)]


/-- A world that answers only a GET through a client with a timeout of 120 s. -/
def exPatientEnv : Env :=
  ⟨fun client _ =>
      if client.Timeout = 120000000000 then some ⟨"image".toList, false⟩ else none,
    fun _ => true⟩

/-- A site reporting no post for the query whose result pages cannot be fetched. -/
def exDeadSite : Env :=
  ⟨fun _ url =>
      if url = countURL (exCrawler "images" 2) then
        some ⟨"<posts count=\"0\" offset=\"0\"/>".toList, false⟩
      else none,
    fun _ => true⟩

/-- A run over a zero count with a failing page fetch: the count is fetched and
the enumerator spawned; the enumerator requests page 1 and panics on the
failed GET. -/
def exDeadRun : List SysAction :=
  [SysAction.main, SysAction.main, SysAction.enum none, SysAction.enum none]

/-! ## Lemmas: glob patterns -/

theorem parsePattern_lit_cons (fuel : Nat) (ch : Char) (rest : Str) (h : isMagic ch = false) :
    parsePattern (fuel + 1) (ch :: rest) = (parsePattern fuel rest).map (Term.lit ch :: ·) := by
  have h1 : ch ≠ '*' := by rintro rfl; revert h; decide
  have h2 : ch ≠ '?' := by rintro rfl; revert h; decide
  have h3 : ch ≠ '[' := by rintro rfl; revert h; decide
  have h4 : ch ≠ '\\' := by rintro rfl; revert h; decide
  conv_lhs => unfold parsePattern
  split <;> simp_all

theorem parsePattern_lits (fuel : Nat) (s rest : Str) (h : ∀ ch ∈ s, isMagic ch = false) :
    parsePattern (fuel + s.length) (s ++ rest)
      = (parsePattern fuel rest).map (fun ts => s.map Term.lit ++ ts) := by
  induction s with
  | nil => simp
  | cons ch s ih =>
    have hc : isMagic ch = false := h ch (by simp)
    have hs : ∀ x ∈ s, isMagic x = false := fun x hx => h x (by simp [hx])
    have : fuel + (ch :: s).length = (fuel + s.length) + 1 := by simp; omega
    rw [this, List.cons_append, parsePattern_lit_cons _ _ _ hc, ih hs]
    cases parsePattern fuel rest <;> simp

theorem matchTerms_lits (s : Str) (ts : List Term) (n : Str) :
    matchTerms (s.map Term.lit ++ ts) (s ++ n) = matchTerms ts n := by
  induction s with
  | nil => simp
  | cons ch s ih => simp [matchTerms, ih]

theorem starTails_nil_mem (e : Str) (h : '/' ∉ e) : [] ∈ starTails e := by
  induction e with
  | nil => simp [starTails]
  | cons ch e ih =>
    have h1 : ch ≠ '/' := fun hc => h (by simp [hc])
    have h2 : '/' ∉ e := fun hc => h (by simp [hc])
    simp [starTails, h1, ih h2]

theorem matchTerms_dot_star (e : Str) (h : '/' ∉ e) :
    matchTerms [Term.lit '.', Term.star] ('.' :: e) = true := by
  simp only [matchTerms, beq_self_eq_true, Bool.true_and, List.any_eq_true]
  exact ⟨[], starTails_nil_mem e h, by simp⟩

theorem glob_hit (fs : FS) (base e : Str) (hbase : ∀ ch ∈ base, isMagic ch = false)
    (he : '/' ∉ e) (hfile : (base ++ '.' :: e) ∈ fs.map Prod.fst) :
    Glob fs (base ++ ".*".toList) ≠ [] := by
  have hp : parsePattern ((base ++ ".*".toList).length + 1) (base ++ ".*".toList)
      = some (base.map Term.lit ++ [Term.lit '.', Term.star]) := by
    have : (base ++ ".*".toList).length + 1 = 3 + base.length := by simp; omega
    rw [this, parsePattern_lits 3 base _ hbase]
    rfl
  have hm : matchTerms (base.map Term.lit ++ [Term.lit '.', Term.star]) (base ++ '.' :: e) = true := by
    rw [matchTerms_lits]; exact matchTerms_dot_star e he
  unfold Glob
  rw [hp]
  intro hnil
  have : (base ++ '.' :: e) ∈ List.filter (matchTerms (base.map Term.lit ++ [Term.lit '.', Term.star])) (fs.map Prod.fst) :=
    List.mem_filter.mpr ⟨hfile, hm⟩
  simp only at hnil
  rw [hnil] at this
  simp at this

/-! ## Lemmas: the extension and the dedup test -/

theorem isLowerAlnum_not_dot : isLowerAlnum '.' = false := by decide

theorem isLowerAlnum_not_slash : isLowerAlnum '/' = false := by decide

theorem extMatchHere_before_dot (ch : Char) (pre al : Str) :
    extMatchHere (ch :: (pre ++ '.' :: al)) = false := by
  simp [extMatchHere, isLowerAlnum_not_dot]

theorem FindString_dot_suffix (pre al : Str) (hne : al ≠ [])
    (hcls : ∀ ch ∈ al, isLowerAlnum ch = true) :
    FindString (pre ++ '.' :: al) = '.' :: al := by
  induction pre with
  | nil =>
    have h : extMatchHere ('.' :: al) = true := by
      simp only [extMatchHere, Bool.and_eq_true, List.all_eq_true]
      refine ⟨⟨by decide, ?_⟩, hcls⟩
      cases al with
      | nil => exact absurd rfl hne
      | cons a as => rfl
    simp [FindString, h]
  | cons ch pre ih =>
    have h := extMatchHere_before_dot ch pre al
    rw [List.cons_append, FindString, h]
    simpa using ih

theorem lowerAlnum_no_slash (al : Str) (hcls : ∀ ch ∈ al, isLowerAlnum ch = true) : '/' ∉ al := by
  intro h
  have := hcls _ h
  rw [isLowerAlnum_not_slash] at this
  exact Bool.noConfusion this

theorem fileBasename_no_magic (c : Crawler) (request : httpRequest)
    (hdest : ∀ ch ∈ c.destinationFolder, isMagic ch = false)
    (hmd5 : ∀ ch ∈ infoGet request.info "md5".toList, isMagic ch = false) :
    ∀ ch ∈ c.fileBasename request, isMagic ch = false := by
  intro ch h
  simp only [Crawler.fileBasename, List.mem_append] at h
  rcases h with (h | h) | h
  · exact hdest ch h
  · have : ch = '/' := by simpa using h
    subst this; decide
  · exact hmd5 ch h

theorem alreadyThere_of_file (c : Crawler) (fs : FS) (request : httpRequest) (ext : Str)
    (hdest : ∀ ch ∈ c.destinationFolder, isMagic ch = false)
    (hmd5 : ∀ ch ∈ infoGet request.info "md5".toList, isMagic ch = false)
    (hext : '/' ∉ ext)
    (hfile : (c.fileBasename request ++ '.' :: ext) ∈ fs.map Prod.fst) :
    c.alreadyThere fs request = true := by
  have := glob_hit fs (c.fileBasename request) ext (fileBasename_no_magic c request hdest hmd5)
    hext hfile
  simp only [Crawler.alreadyThere, Bool.not_eq_true', List.isEmpty_eq_false]
  cases h : Glob fs (c.fileBasename request ++ ".*".toList) with
  | nil => exact absurd h this
  | cons a as => simp

theorem asyncDownloadItem_download (c : Crawler) (env : Env) (fs : FS) (request : httpRequest)
    (response : Response)
    (hmiss : c.alreadyThere fs request = false)
    (hget : httpGet env request.url = some response)
    (hcreate : env.create (c.targetPath request) = true)
    (hread : response.readErr = false) :
    c.asyncDownloadItem env fs request
      = ⟨some true, [request.url], writeFile fs (c.targetPath request) response.body⟩ := by
  unfold Crawler.asyncDownloadItem
  simp only [hmiss, Bool.false_eq_true, if_false, Crawler.fetch, hget, Crawler.saver, hcreate,
    if_true, hread]

theorem asyncDownloadItem_written (c : Crawler) (env : Env) (fs : FS) (request : httpRequest)
    (h : (c.asyncDownloadItem env fs request).token = some true) :
    ∃ b, (c.asyncDownloadItem env fs request).fs = writeFile fs (c.targetPath request) b := by
  unfold Crawler.asyncDownloadItem at h ⊢
  cases ha : c.alreadyThere fs request
  · simp only [ha, Bool.false_eq_true, if_false] at h ⊢
    cases hf : c.fetch env request with
    | none => rw [hf] at h; cases h
    | some response =>
      simp only [hf, Crawler.saver] at h ⊢
      cases hc : env.create (c.targetPath request)
      · rw [hc] at h; cases h
      · cases hr : response.resp.readErr
        · exact ⟨response.resp.body, by simp only [hc, hr, if_true, Bool.false_eq_true, if_false]⟩
        · rw [hc, hr] at h; cases h
  · rw [ha] at h; cases h

/-! ## Lemmas: the page loop -/

theorem pageItems_of_le (urls md5 : List Str) (h : urls.length ≤ md5.length) :
    pageItems urls md5 = (workItems urls md5, true) := by
  induction urls generalizing md5 with
  | nil => simp [pageItems, workItems]
  | cons u us ih =>
    cases md5 with
    | nil => simp at h
    | cons m ms =>
      have h2 : us.length ≤ ms.length := by simpa using h
      simp [pageItems, workItems, ih ms h2]

theorem pageItems_of_gt (urls md5 : List Str) (h : md5.length < urls.length) :
    pageItems urls md5 = (workItems urls md5, false) := by
  induction urls generalizing md5 with
  | nil => simp at h
  | cons u us ih =>
    cases md5 with
    | nil => simp [pageItems, workItems]
    | cons m ms =>
      have h2 : ms.length < us.length := by simpa using h
      simp [pageItems, workItems, ih ms h2]

theorem getURLsPage_of_get (c : Crawler) (env : Env) (page : Nat) (response : Response)
    (hget : httpGet env (pageURL c page) = some response) :
    c.getURLsPage env page
      = if (gjsonArray response.body "md5".toList).length = 0 then PageOutcome.endOfResults
        else PageOutcome.items
          (pageItems (gjsonArray response.body c.format) (gjsonArray response.body "md5".toList)).1
          (pageItems (gjsonArray response.body c.format) (gjsonArray response.body "md5".toList)).2 := by
  simp only [Crawler.getURLsPage, Crawler.fetch, hget]

theorem getURLsLoop_until (c : Crawler) (env : Env) (urls md5 : Nat → List Str) (n : Nat) :
    ∀ (p fuel : Nat), n + 1 ≤ fuel →
      (∀ j, p ≤ j → j < p + n →
        c.getURLsPage env j = PageOutcome.items (workItems (urls j) (md5 j)) true) →
      c.getURLsPage env (p + n) = PageOutcome.endOfResults →
      c.getURLsLoop env fuel p = ⟨pagesItems urls md5 p n, List.range' p (n + 1), true, false⟩ := by
  induction n with
  | zero =>
    intro p fuel hfuel _ hend
    obtain ⟨f, rfl⟩ : ∃ f, fuel = f + 1 := ⟨fuel - 1, by omega⟩
    simp only [Nat.add_zero] at hend
    simp [Crawler.getURLsLoop, hend, pagesItems, List.range']
  | succ n ih =>
    intro p fuel hfuel hpages hend
    obtain ⟨f, rfl⟩ : ∃ f, fuel = f + 1 := ⟨fuel - 1, by omega⟩
    have hp := hpages p (Nat.le_refl p) (by omega)
    have hrest := ih (p + 1) f (by omega)
      (fun j h1 h2 => hpages j (by omega) (by omega))
      (by rw [show p + 1 + n = p + (n + 1) by omega]; exact hend)
    simp [Crawler.getURLsLoop, hp, hrest, pagesItems, List.range']

theorem getURLsLoop_never_closes (c : Crawler) (env : Env)
    (hpages : ∀ j, 1 ≤ j → ∃ xs b, c.getURLsPage env j = PageOutcome.items xs b) :
    ∀ (fuel p : Nat), 1 ≤ p → (c.getURLsLoop env fuel p).closed = false := by
  intro fuel
  induction fuel with
  | zero => intro p _; rfl
  | succ f ih =>
    intro p hp
    obtain ⟨xs, b, h⟩ := hpages p hp
    cases b with
    | false => simp [Crawler.getURLsLoop, h]
    | true => simpa [Crawler.getURLsLoop, h] using ih (p + 1) (by omega)

theorem toBracket_none (data : Str) (h : ∀ ch ∈ data, ch ≠ '[' ∧ ch ≠ '\x7b') :
    toBracket data = none := by
  induction data with
  | nil => rfl
  | cons ch rest ih =>
    have hc := h ch (List.mem_cons_self _ _)
    have hr : ∀ x ∈ rest, x ≠ '[' ∧ x ≠ '\x7b' := fun x hx => h x (List.mem_cons_of_mem _ hx)
    simp [toBracket, hc.1, hc.2, ih hr]

theorem gjsonArray_bracketless (data f : Str) (h : ∀ ch ∈ data, ch ≠ '[' ∧ ch ≠ '\x7b') :
    gjsonArray data f = [] := by
  simp [gjsonArray, gjsonValues, toBracket_none data h]

/-! ## Lemmas: the pool -/

theorem countP_set_add (f : Worker → Bool) (ws : List Worker) (i : Nat) (w w2 : Worker)
    (h : ws[i]? = some w) :
    (ws.set i w2).countP f + (if f w then 1 else 0) = ws.countP f + (if f w2 then 1 else 0) := by
  induction ws generalizing i with
  | nil => simp at h
  | cons a as ih =>
    cases i with
    | zero =>
      simp only [List.getElem?_cons_zero, Option.some.injEq] at h
      subst h
      simp only [List.set_cons_zero, List.countP_cons]
      omega
    | succ j =>
      simp only [List.getElem?_cons_succ] at h
      have := ih j h
      simp only [List.set_cons_succ, List.countP_cons]
      omega

theorem not_all_exited (ws : List Worker) (i : Nat) (w : Worker) (h : ws[i]? = some w)
    (hw : w ≠ Worker.exited) (hall : ∀ x ∈ ws, x = Worker.exited) : False :=
  hw (hall w (List.getElem?_mem h))

theorem getElem?_nil_absurd (ws : List Worker) (i : Nat) (w : Worker) (h : ws[i]? = some w)
    (hnil : ws = []) : False := by
  subst hnil; simp at h

theorem PoolInv.pool_init (c : Crawler) (fs : FS) : PoolInv c fs (Pool.init fs) := by
  constructor <;> simp [Pool.init]

theorem PoolInv.pool_panic (c : Crawler) (fs0 : FS) (p : Pool) (h : PoolInv c fs0 p) :
    PoolInv c fs0 p.panic :=
  ⟨h.count, h.closedOut, h.exitedIn, h.size, h.fresh⟩

theorem PoolInv.setWorker (c : Crawler) (fs0 : FS) (p q : Pool) (i : Nat) (w w2 : Worker)
    (h : PoolInv c fs0 p) (hw : p.workers[i]? = some w) (hne : w ≠ Worker.exited)
    (hworkers : q.workers = p.workers.set i w2)
    (hstarted : q.started = p.started)
    (hcount : q.ch.length + (if w2.busy then 1 else 0) + q.requests.length + p.sent.length
      = p.ch.length + (if w.busy then 1 else 0) + p.requests.length + q.sent.length)
    (hclosed : q.chClosed = p.chClosed)
    (hexit : (w2 = Worker.exited ∨ ∃ x ∈ p.workers, x = Worker.exited) →
      q.requestsClosed = true ∧ q.requests = []) :
    PoolInv c fs0 q := by
  have hstart : p.started = true := by
    cases hs : p.started with
    | true => rfl
    | false => exact absurd (h.fresh hs).1 (fun hnil => getElem?_nil_absurd _ _ _ hw hnil)
  constructor
  · have := countP_set_add Worker.busy p.workers i w w2 hw
    have := h.count
    rw [hworkers]
    omega
  · intro hc
    rw [hclosed] at hc
    exact absurd (h.closedOut hc).2 (fun hall => not_all_exited _ _ _ hw hne hall)
  · intro x hx hxe
    rw [hworkers] at hx
    rcases List.mem_or_eq_of_mem_set hx with hx | hx
    · exact hexit (Or.inr ⟨x, hx, hxe⟩)
    · exact hexit (Or.inl (hx ▸ hxe))
  · intro _
    rw [hworkers, List.length_set]
    exact h.size hstart
  · intro hs
    rw [hstarted, hstart] at hs
    cases hs

theorem Pool.step_not_panicked (c : Crawler) (env : Env) (p q : Pool) (a : PoolAction)
    (h : Pool.step c env p a = some q) : p.panicked = false := by
  cases hp : p.panicked with
  | false => rfl
  | true => simp [Pool.step, hp] at h

theorem Pool.pool_step_inv (c : Crawler) (env : Env) (fs0 : FS) (p q : Pool) (a : PoolAction)
    (hinv : PoolInv c fs0 p) (h : Pool.step c env p a = some q) : PoolInv c fs0 q := by
  have hp := Pool.step_not_panicked c env p q a h
  cases a with
  | start =>
    simp only [Pool.step, hp, Bool.false_eq_true, if_false] at h
    split at h
    · cases h
    · rename_i hs
      have hs : p.started = false := by simpa using hs
      obtain ⟨hw, hch, hfs, hcl⟩ := hinv.fresh hs
      split at h
      · cases h; exact hinv.pool_panic
      · cases h
        have hc := hinv.count
        constructor
        · simp only [List.countP_replicate, Worker.busy]
          rw [hw] at hc
          simpa using hc
        · intro hx; simp only at hx; rw [hcl] at hx; cases hx
        · intro w hw2 hwe
          simp only [List.mem_replicate] at hw2
          rw [hw2.2] at hwe; cases hwe
        · intro _; simp
        · intro hx; simp at hx
  | send x =>
    simp only [Pool.step, hp, Bool.false_eq_true, if_false] at h
    split at h
    · cases h; exact hinv.pool_panic
    · rename_i hc
      split at h
      · cases h
        constructor
        · have := hinv.count
          simp only [List.length_append, List.length_singleton]
          omega
        · exact hinv.closedOut
        · intro w hw hwe
          exact absurd (hinv.exitedIn w hw hwe).1 hc
        · exact hinv.size
        · exact hinv.fresh
      · cases h
  | handoff x i =>
    simp only [Pool.step, hp, Bool.false_eq_true, if_false] at h
    split at h
    · cases h
    · rename_i hc
      split at h
      · rename_i hw hr
        cases h
        refine PoolInv.setWorker c fs0 p _ i Worker.idle (Worker.holding x) hinv hw
          (by simp) rfl rfl ?_ rfl ?_
        · simp [Worker.busy, hr]; omega
        · rintro (h1 | ⟨w, hw1, hw2⟩)
          · cases h1
          · exact absurd (hinv.exitedIn w hw1 hw2).1 hc
      · cases h
  | closeIn =>
    simp only [Pool.step, hp, Bool.false_eq_true, if_false] at h
    split at h
    · cases h; exact hinv.pool_panic
    · cases h
      exact ⟨hinv.count, hinv.closedOut, fun w hw hwe => ⟨rfl, (hinv.exitedIn w hw hwe).2⟩,
        hinv.size, hinv.fresh⟩
  | recv i =>
    simp only [Pool.step, hp, Bool.false_eq_true, if_false] at h
    split at h
    · rename_i y rest hw hr
      cases h
      refine PoolInv.setWorker c fs0 p _ i Worker.idle (Worker.holding y) hinv hw
        (by simp) rfl rfl ?_ rfl ?_
      · simp [Worker.busy, hr]; omega
      · rintro (h1 | ⟨w, hw1, hw2⟩)
        · cases h1
        · have := (hinv.exitedIn w hw1 hw2).2
          rw [hr] at this; cases this
    · cases h
  | quit i =>
    simp only [Pool.step, hp, Bool.false_eq_true, if_false] at h
    split at h
    · rename_i hw hr
      split at h
      · rename_i hc
        cases h
        refine PoolInv.setWorker c fs0 p _ i Worker.idle Worker.exited hinv hw
          (by simp) rfl rfl ?_ rfl ?_
        · simp [Worker.busy]
        · intro _; exact ⟨hc, hr⟩
      · cases h
    · cases h
  | check i =>
    simp only [Pool.step, hp, Bool.false_eq_true, if_false] at h
    split at h
    · rename_i r hw
      split at h
      · cases h
        refine PoolInv.setWorker c fs0 p _ i (Worker.holding r) Worker.idle hinv hw
          (by simp) rfl rfl ?_ rfl ?_
        · simp [Worker.busy]
        · rintro (h1 | ⟨w, hw1, hw2⟩)
          · cases h1
          · exact hinv.exitedIn w hw1 hw2
      · cases h
        refine PoolInv.setWorker c fs0 p _ i (Worker.holding r) (Worker.fetching r) hinv hw
          (by simp) rfl rfl ?_ rfl ?_
        · simp [Worker.busy]
        · rintro (h1 | ⟨w, hw1, hw2⟩)
          · cases h1
          · exact hinv.exitedIn w hw1 hw2
    · cases h
  | finish i =>
    simp only [Pool.step, hp, Bool.false_eq_true, if_false] at h
    split at h
    · rename_i r hw
      have hstart : p.started = true := by
        cases hs : p.started with
        | true => rfl
        | false => exact absurd (hinv.fresh hs).1 (fun hnil => getElem?_nil_absurd _ _ _ hw hnil)
      split at h
      · cases h; exact hinv.pool_panic
      · split at h
        · cases h
          refine PoolInv.setWorker c fs0 p _ i (Worker.fetching r) Worker.idle hinv hw
            (by simp) rfl rfl ?_ rfl ?_
          · simp [Worker.busy]
          · rintro (h1 | ⟨w, hw1, hw2⟩)
            · cases h1
            · exact hinv.exitedIn w hw1 hw2
        · cases h
          refine ⟨hinv.count, hinv.closedOut, hinv.exitedIn, hinv.size, ?_⟩
          intro hs
          simp only at hs
          rw [hstart] at hs; cases hs
    · cases h
  | closeOut =>
    simp only [Pool.step, hp, Bool.false_eq_true, if_false] at h
    split at h
    · rename_i hg
      cases h
      simp only [Bool.and_eq_true, Bool.not_eq_true', List.all_eq_true, beq_iff_eq] at hg
      refine ⟨hinv.count, fun _ => ⟨hg.1.1, hg.2⟩, hinv.exitedIn, hinv.size, ?_⟩
      intro hs
      simp only at hs
      rw [hg.1.1] at hs; cases hs
    · cases h

theorem Pool.pool_run_inv (c : Crawler) (env : Env) (fs0 : FS) (acts : List PoolAction) :
    ∀ (p q : Pool), PoolInv c fs0 p → Pool.run c env acts p = some q → PoolInv c fs0 q := by
  induction acts with
  | nil =>
    intro p q hinv h
    simp only [Pool.run, Option.some.injEq] at h
    exact h ▸ hinv
  | cons a rest ih =>
    intro p q hinv h
    simp only [Pool.run] at h
    split at h
    · cases h
    · rename_i r hr
      exact ih r q (Pool.pool_step_inv c env fs0 p r a hinv hr) h

theorem PoolInv.closed_all_answered (c : Crawler) (fs0 : FS) (p : Pool) (hinv : PoolInv c fs0 p)
    (hworkers : 1 ≤ c.maxWorkers) (hclosed : p.chClosed = true) :
    p.ch.length = p.sent.length ∧ p.requestsClosed = true ∧ p.requests = []
      ∧ ∀ w ∈ p.workers, w = Worker.exited := by
  obtain ⟨hs, hall⟩ := hinv.closedOut hclosed
  have hlen := hinv.size hs
  have hpos : 0 < p.workers.length := by rw [hlen]; omega
  obtain ⟨w, hw⟩ := List.exists_mem_of_length_pos hpos
  obtain ⟨hrc, hr⟩ := hinv.exitedIn w hw (hall w hw)
  have hbusy : p.workers.countP Worker.busy = 0 := by
    rw [List.countP_eq_zero]
    intro x hx
    rw [hall x hx]; simp [Worker.busy]
  have := hinv.count
  rw [hbusy, hr] at this
  exact ⟨by simpa using this, hrc, hr, hall⟩

theorem Pool.step_token (c : Crawler) (env : Env) (p q : Pool) (a : PoolAction)
    (h : Pool.step c env p a = some q) :
    q.ch = p.ch
    ∨ (∃ (i : Nat) (r : httpRequest), p.workers[i]? = some (Worker.holding r)
        ∧ c.alreadyThere p.fs r = true ∧ q.ch = p.ch ++ [false] ∧ q.fs = p.fs)
    ∨ (∃ (i : Nat) (r : httpRequest) (response : httpResponse),
        p.workers[i]? = some (Worker.fetching r)
        ∧ c.fetch env r = some response ∧ response.resp.readErr = false
        ∧ q.ch = p.ch ++ [true]
        ∧ q.fs = writeFile p.fs (c.targetPath r) response.resp.body) := by
  have hp := Pool.step_not_panicked c env p q a h
  cases a with
  | check i =>
    simp only [Pool.step, hp, Bool.false_eq_true, if_false] at h
    split at h
    · rename_i r hw
      split at h
      · rename_i hthere
        cases h
        exact Or.inr (Or.inl ⟨i, r, hw, hthere, rfl, rfl⟩)
      · cases h; exact Or.inl rfl
    · cases h
  | finish i =>
    simp only [Pool.step, hp, Bool.false_eq_true, if_false] at h
    split at h
    · rename_i r hw
      split at h
      · cases h; exact Or.inl rfl
      · rename_i response hf
        unfold Crawler.saver at h
        cases hc : env.create (c.targetPath r)
        · simp only [hc, Bool.false_eq_true, if_false] at h
          cases h; exact Or.inl rfl
        · cases hr : response.resp.readErr
          · simp only [hc, hr, if_true, Bool.false_eq_true, if_false] at h
            cases h
            exact Or.inr (Or.inr ⟨i, r, response, hw, hf, hr, rfl, rfl⟩)
          · simp only [hc, hr, if_true] at h
            cases h; exact Or.inl rfl
    · cases h
  | start =>
    simp only [Pool.step, hp, Bool.false_eq_true, if_false] at h
    repeat' split at h
    all_goals (first | (cases h; exact Or.inl rfl) | cases h)
  | send x =>
    simp only [Pool.step, hp, Bool.false_eq_true, if_false] at h
    repeat' split at h
    all_goals (first | (cases h; exact Or.inl rfl) | cases h)
  | handoff x i =>
    simp only [Pool.step, hp, Bool.false_eq_true, if_false] at h
    repeat' split at h
    all_goals (first | (cases h; exact Or.inl rfl) | cases h)
  | closeIn =>
    simp only [Pool.step, hp, Bool.false_eq_true, if_false] at h
    repeat' split at h
    all_goals (cases h; exact Or.inl rfl)
  | recv i =>
    simp only [Pool.step, hp, Bool.false_eq_true, if_false] at h
    repeat' split at h
    all_goals (first | (cases h; exact Or.inl rfl) | cases h)
  | quit i =>
    simp only [Pool.step, hp, Bool.false_eq_true, if_false] at h
    repeat' split at h
    all_goals (first | (cases h; exact Or.inl rfl) | cases h)
  | closeOut =>
    simp only [Pool.step, hp, Bool.false_eq_true, if_false] at h
    repeat' split at h
    all_goals (first | (cases h; exact Or.inl rfl) | cases h)

theorem Pool.worker_iteration (c : Crawler) (env : Env) (p : Pool) (i : Nat) (r : httpRequest)
    (hp : p.panicked = false) (hw : p.workers[i]? = some (Worker.holding r)) :
    (c.alreadyThere p.fs r = true →
      Pool.run c env [PoolAction.check i] p
        = some { p with ch := p.ch ++ [false], workers := p.workers.set i Worker.idle }
      ∧ c.asyncDownloadItem env p.fs r = ⟨some false, [], p.fs⟩)
    ∧ (c.alreadyThere p.fs r = false →
      ∀ b, (c.asyncDownloadItem env p.fs r).token = some b →
        Pool.run c env [PoolAction.check i, PoolAction.finish i] p
          = some { p with ch := p.ch ++ [b], fs := (c.asyncDownloadItem env p.fs r).fs,
                          workers := p.workers.set i Worker.idle }) := by
  have hi : i < p.workers.length := by
    rcases List.getElem?_eq_some.mp hw with ⟨h, _⟩
    exact h
  constructor
  · intro ha
    exact ⟨by simp [Pool.run, Pool.step, hp, hw, ha], by simp [Crawler.asyncDownloadItem, ha]⟩
  · intro ha b hb
    unfold Crawler.asyncDownloadItem at hb ⊢
    simp only [ha, Bool.false_eq_true, if_false] at hb ⊢
    cases hf : c.fetch env r with
    | none => rw [hf] at hb; cases hb
    | some response =>
      simp only [hf] at hb ⊢
      cases hs : c.saver env p.fs response (c.targetPath r) with
      | panicked fs2 => rw [hs] at hb; cases hb
      | ok fs2 =>
        rw [hs] at hb
        simp only [Option.some.injEq] at hb
        subst hb
        simp [Pool.run, Pool.step, hp, hw, ha, hf, hs, List.getElem?_set, hi]

/-! ## Lemmas: the process -/

theorem Pool.step_started (c : Crawler) (env : Env) (p q : Pool) (a : PoolAction)
    (hne : a ≠ PoolAction.start) (h : Pool.step c env p a = some q) : q.started = p.started := by
  have hp := Pool.step_not_panicked c env p q a h
  cases a <;> simp only [Pool.step, hp, Bool.false_eq_true, if_false] at h
  · exact absurd rfl hne
  all_goals (repeat' split at h)
  all_goals (first | (cases h; rfl) | cases h)

theorem SysInv.sys_init (c : Crawler) (fs : FS) : SysInv c fs (Sys.init fs) :=
  ⟨PoolInv.pool_init c fs, fun _ => rfl, fun _ => rfl, fun _ h => (by cases h),
    fun h => (by cases h)⟩

theorem SysInv.sys_panic (c : Crawler) (fs0 : FS) (s : Sys) (h : SysInv c fs0 s) :
    SysInv c fs0 s.panic :=
  ⟨h.pool.pool_panic, h.early, h.unstarted,
    fun _ hc => Or.inr ⟨(Option.some.inj hc).symm, rfl⟩, fun _ => rfl⟩

theorem Sys.step_enabled (c : Crawler) (env : Env) (s t : Sys) (a : SysAction)
    (h : Sys.step c env s a = some t) : s.pool.panicked = false ∧ s.exit = none := by
  unfold Sys.step at h
  split at h
  · cases h
  · rename_i hg
    cases hp : s.pool.panicked <;> cases he : s.exit <;> simp [hp, he] at hg
    exact ⟨rfl, rfl⟩

theorem SysInv.poolStep (c : Crawler) (env : Env) (fs0 : FS) (s : Sys) (q : Pool)
    (a : PoolAction) (m : MainPc) (e : EnumPc) (hinv : SysInv c fs0 s)
    (hexit : s.exit = none)
    (hearly : (m = MainPc.init ∨ m = MainPc.counting) → e = EnumPc.unborn)
    (hunstarted : (m = MainPc.init ∨ m = MainPc.counting ∨ ∃ t, m = MainPc.counted t) →
      q.started = false)
    (h : Pool.step c env s.pool a = some q) :
    SysInv c fs0 (Sys.settle ⟨m, e, q, s.pages, s.exit⟩) := by
  have hpool := Pool.pool_step_inv c env fs0 s.pool q a hinv.pool h
  unfold Sys.settle
  cases hq : q.panicked
  · simp only [Bool.false_eq_true, if_false]
    refine ⟨hpool, hearly, hunstarted, ?_, ?_⟩
    · intro code hc
      simp only [hexit] at hc
      cases hc
    · intro hp
      simp only [hq] at hp
      cases hp
  · simp only [if_true]
    exact ⟨hpool, hearly, hunstarted, fun _ hc => Or.inr ⟨(Option.some.inj hc).symm, hq⟩,
      fun _ => rfl⟩

theorem Sys.sys_step_inv (c : Crawler) (env : Env) (fs0 : FS) (s t : Sys) (a : SysAction)
    (hinv : SysInv c fs0 s) (h : Sys.step c env s a = some t) : SysInv c fs0 t := by
  obtain ⟨hpf, hexit⟩ := Sys.step_enabled c env s t a h
  have hcode : ∀ code, s.exit = some code →
      (code = 0 ∧ s.pool.panicked = false) ∨ (code = panicStatus ∧ s.pool.panicked = true) :=
    hinv.exitCode
  have hpe : s.pool.panicked = true → s.exit = some panicStatus := hinv.panicExit
  unfold Sys.step at h
  split at h
  · cases h
  · cases a with
    | main =>
      simp only at h
      split at h
      · rename_i hm
        split at h
        · cases h; exact hinv.sys_panic
        · cases h
          exact ⟨hinv.pool, fun _ => hinv.early (Or.inl hm), fun _ => hinv.unstarted (Or.inl hm),
            hcode, hpe⟩
      · rename_i hm
        split at h
        · cases h; exact hinv.sys_panic
        · cases h
          refine ⟨hinv.pool, ?_, fun _ => hinv.unstarted (Or.inr (Or.inl hm)), hcode, hpe⟩
          rintro (h1 | h1) <;> cases h1
      · rename_i total hm
        split at h
        · cases h
          refine ⟨hinv.pool, hinv.early, hinv.unstarted, ?_, ?_⟩
          · intro code hc
            exact Or.inl ⟨(Option.some.inj hc).symm, hpf⟩
          · intro hp
            simp only [hpf] at hp
            cases hp
        · cases hq : Pool.step c env s.pool PoolAction.start with
          | none => rw [hq] at h; cases h
          | some q =>
            rw [hq] at h
            cases h
            refine SysInv.poolStep c env fs0 s q _ MainPc.draining s.enum hinv hexit ?_ ?_ hq
            · rintro (h1 | h1) <;> cases h1
            · rintro (h1 | h1 | ⟨_, h1⟩) <;> cases h1
      · split at h
        · cases h
          refine ⟨hinv.pool, ?_, ?_, ?_, ?_⟩
          · rintro (h1 | h1) <;> cases h1
          · rintro (h1 | h1 | ⟨_, h1⟩) <;> cases h1
          · intro code hc
            exact Or.inl ⟨(Option.some.inj hc).symm, hpf⟩
          · intro hp
            simp only [hpf] at hp
            cases hp
        · cases h
      · cases h
    | enum target =>
      simp only at h
      split at h
      · cases h
      · cases h
      · rename_i page he
        cases h
        refine ⟨hinv.pool, ?_, hinv.unstarted, hcode, hpe⟩
        intro hm
        have := hinv.early hm
        rw [he] at this; cases this
      · rename_i page he
        have hm : s.main ≠ MainPc.init ∧ s.main ≠ MainPc.counting := by
          constructor <;> intro hm
          · have := hinv.early (Or.inl hm); rw [he] at this; cases this
          · have := hinv.early (Or.inr hm); rw [he] at this; cases this
        split at h
        · cases h; exact hinv.sys_panic
        · cases hq : Pool.step c env s.pool PoolAction.closeIn with
          | none => rw [hq] at h; cases h
          | some q =>
            rw [hq] at h
            cases h
            refine SysInv.poolStep c env fs0 s q _ s.main EnumPc.done hinv hexit ?_ ?_ hq
            · rintro (h1 | h1)
              · exact absurd h1 hm.1
              · exact absurd h1 hm.2
            · intro h1
              rw [Pool.step_started c env s.pool q _ (by simp) hq]
              exact hinv.unstarted h1
        · cases h
          refine ⟨hinv.pool, ?_, hinv.unstarted, hcode, hpe⟩
          rintro (h1 | h1)
          · exact absurd h1 hm.1
          · exact absurd h1 hm.2
      · rename_i page completes he
        have hm : s.main ≠ MainPc.init ∧ s.main ≠ MainPc.counting := by
          constructor <;> intro hm
          · have := hinv.early (Or.inl hm); rw [he] at this; cases this
          · have := hinv.early (Or.inr hm); rw [he] at this; cases this
        split at h
        · cases h
          refine ⟨hinv.pool, ?_, hinv.unstarted, hcode, hpe⟩
          rintro (h1 | h1)
          · exact absurd h1 hm.1
          · exact absurd h1 hm.2
        · cases h; exact hinv.sys_panic
      · rename_i page x rest completes he
        have hm : s.main ≠ MainPc.init ∧ s.main ≠ MainPc.counting := by
          constructor <;> intro hm
          · have := hinv.early (Or.inl hm); rw [he] at this; cases this
          · have := hinv.early (Or.inr hm); rw [he] at this; cases this
        have key : ∀ (a : PoolAction) (q : Pool), a ≠ PoolAction.start →
            Pool.step c env s.pool a = some q →
            SysInv c fs0 (Sys.settle
              { s with enum := EnumPc.emitting page rest completes, pool := q }) := by
          intro a q hne hq
          refine SysInv.poolStep c env fs0 s q a s.main (EnumPc.emitting page rest completes)
            hinv hexit ?_ ?_ hq
          · rintro (h1 | h1)
            · exact absurd h1 hm.1
            · exact absurd h1 hm.2
          · intro h1
            rw [Pool.step_started c env s.pool q a hne hq]
            exact hinv.unstarted h1
        cases target with
        | none =>
          simp only at h
          rw [Option.map_eq_some'] at h
          obtain ⟨q, hq, rfl⟩ := h
          exact key _ q (by simp) hq
        | some i =>
          simp only at h
          rw [Option.map_eq_some'] at h
          obtain ⟨q, hq, rfl⟩ := h
          exact key _ q (by simp) hq
    | worker a =>
      simp only at h
      split at h
      · rename_i hb
        rw [Option.map_eq_some'] at h
        obtain ⟨q, hq, rfl⟩ := h
        have hne : a ≠ PoolAction.start := by
          rintro rfl; cases hb
        refine SysInv.poolStep c env fs0 s q a s.main s.enum hinv hexit hinv.early ?_ hq
        intro h1
        rw [Pool.step_started c env s.pool q a hne hq]
        exact hinv.unstarted h1
      · cases h

theorem Sys.sys_run_inv (c : Crawler) (env : Env) (fs0 : FS) (acts : List SysAction) :
    ∀ (s t : Sys), SysInv c fs0 s → Sys.run c env acts s = some t → SysInv c fs0 t := by
  induction acts with
  | nil =>
    intro s t hinv h
    simp only [Sys.run, Option.some.injEq] at h
    exact h ▸ hinv
  | cons a rest ih =>
    intro s t hinv h
    simp only [Sys.run] at h
    split at h
    · cases h
    · rename_i r hr
      exact ih r t (Sys.sys_step_inv c env fs0 s r a hinv hr) h

theorem Sys.workers_le (c : Crawler) (fs0 : FS) (s : Sys) (hinv : SysInv c fs0 s) :
    s.pool.workers.length ≤ c.maxWorkers.toNat := by
  cases hs : s.pool.started with
  | true => exact Nat.le_of_eq (hinv.pool.size hs)
  | false => rw [(hinv.pool.fresh hs).1]; simp

/-! ## Lemmas: the enumerator and the work channel -/

theorem Pool.step_keeps_sent (c : Crawler) (env : Env) (p q : Pool) (a : PoolAction)
    (ha : a.byWorker = true ∨ a = PoolAction.start) (h : Pool.step c env p a = some q) :
    q.sent = p.sent ∧ q.requestsClosed = p.requestsClosed := by
  have hp := Pool.step_not_panicked c env p q a h
  cases a <;> simp only [Pool.step, hp, Bool.false_eq_true, if_false] at h
  case send => rcases ha with ha | ha <;> cases ha
  case handoff => rcases ha with ha | ha <;> cases ha
  case closeIn => rcases ha with ha | ha <;> cases ha
  all_goals (repeat' split at h)
  all_goals (first | (cases h; exact ⟨rfl, rfl⟩) | cases h)

theorem Pool.step_send (c : Crawler) (env : Env) (p q : Pool) (x : httpRequest)
    (target : Option Nat) (hopen : p.requestsClosed = false)
    (h : Pool.step c env p
      (match target with
       | none => PoolAction.send x
       | some i => PoolAction.handoff x i) = some q) :
    q.sent = p.sent ++ [x] ∧ q.requestsClosed = false := by
  have hp := Pool.step_not_panicked c env p q _ h
  cases target with
  | none =>
    simp only [Pool.step, hp, hopen, Bool.false_eq_true, if_false] at h
    split at h
    · cases h; exact ⟨rfl, rfl⟩
    · cases h
  | some i =>
    simp only [Pool.step, hp, hopen, Bool.false_eq_true, if_false] at h
    split at h
    · cases h; exact ⟨rfl, rfl⟩
    · cases h

theorem Pool.step_closeIn (c : Crawler) (env : Env) (p q : Pool)
    (h : Pool.step c env p PoolAction.closeIn = some q) :
    q.sent = p.sent ∧ q.requestsClosed = true := by
  have hp := Pool.step_not_panicked c env p q _ h
  simp only [Pool.step, hp, Bool.false_eq_true, if_false] at h
  split at h
  · rename_i hc
    cases h; exact ⟨rfl, hc⟩
  · cases h; exact ⟨rfl, rfl⟩

theorem EnumInv.congr (c : Crawler) (env : Env) (s t : Sys) (h : EnumInv c env s)
    (he : t.enum = s.enum) (hs : t.pool.sent = s.pool.sent) (hp : t.pages = s.pages)
    (hc : t.pool.requestsClosed = s.pool.requestsClosed) : EnumInv c env t := by
  unfold EnumInv at h ⊢
  rw [he, hs, hp, hc]
  exact h

theorem EnumInv.settle (c : Crawler) (env : Env) (t : Sys) (h : EnumInv c env t) :
    EnumInv c env t.settle := by
  unfold Sys.settle
  split
  · exact h.congr c env t _ rfl rfl rfl rfl
  · exact h

theorem passes_succ (c : Crawler) (env : Env) (n : Nat) (xs : List httpRequest)
    (h : c.passes env n) (hp : c.getURLsPage env (n + 1) = PageOutcome.items xs true) :
    c.passes env (n + 1) := by
  intro j h1 h2
  by_cases hj : j ≤ n
  · exact h j h1 hj
  · have : j = n + 1 := by omega
    subst this
    exact ⟨xs, hp⟩

theorem Sys.enum_step_inv (c : Crawler) (env : Env) (fs0 : FS) (s t : Sys) (a : SysAction)
    (hsys : SysInv c fs0 s) (hinv : EnumInv c env s) (h : Sys.step c env s a = some t) :
    EnumInv c env t := by
  unfold Sys.step at h
  split at h
  · cases h
  · cases a with
    | main =>
      simp only at h
      split at h
      · split at h <;> cases h <;> exact hinv.congr c env s _ rfl rfl rfl rfl
      · rename_i hm
        split at h
        · cases h; exact hinv.congr c env s _ rfl rfl rfl rfl
        · cases h
          have he := hsys.early (Or.inr hm)
          unfold EnumInv at hinv ⊢
          rw [he] at hinv
          simp only at hinv ⊢
          refine ⟨Nat.le_refl 1, ?_, ?_, ?_, hinv.2.2⟩
          · intro j h1 h2; omega
          · rw [hinv.1]; rfl
          · rw [hinv.2.1]; rfl
      · split at h
        · cases h; exact hinv.congr c env s _ rfl rfl rfl rfl
        · cases hq : Pool.step c env s.pool PoolAction.start with
          | none => rw [hq] at h; cases h
          | some q =>
            rw [hq] at h
            cases h
            obtain ⟨h1, h2⟩ := Pool.step_keeps_sent c env s.pool q _ (Or.inr rfl) hq
            exact EnumInv.settle c env _ (hinv.congr c env s _ rfl h1 rfl h2)
      · split at h
        · cases h; exact hinv.congr c env s _ rfl rfl rfl rfl
        · cases h
      · cases h
    | enum target =>
      simp only at h
      split at h
      · cases h
      · cases h
      · rename_i page he
        cases h
        unfold EnumInv at hinv ⊢
        rw [he] at hinv
        simp only at hinv ⊢
        obtain ⟨h1, h2, h3, h4, h5⟩ := hinv
        refine ⟨h1, h2, h3, ?_, h5⟩
        rw [h4]
        have : page = (page - 1) + 1 := by omega
        conv_rhs => rw [this]
        rw [List.range'_concat]
        congr 2
        omega
      · rename_i page he
        unfold EnumInv at hinv
        rw [he] at hinv
        simp only at hinv
        obtain ⟨h1, h2, h3, h4, h5⟩ := hinv
        split at h
        · cases h
          unfold EnumInv
          simp only [Sys.panic, he]
          exact ⟨h1, h2, h3, h4, h5⟩
        · rename_i hpage
          cases hq : Pool.step c env s.pool PoolAction.closeIn with
          | none => rw [hq] at h; cases h
          | some q =>
            rw [hq] at h
            cases h
            obtain ⟨hs, hc⟩ := Pool.step_closeIn c env s.pool q hq
            apply EnumInv.settle
            unfold EnumInv
            simp only
            exact ⟨page, h1, h2, hpage, hs.trans h3, h4, hc⟩
        · rename_i xs completes hpage
          cases h
          unfold EnumInv
          simp only
          exact ⟨h1, h2, ⟨xs, hpage, by rw [h3]⟩, h4, h5⟩
      · rename_i page completes he
        unfold EnumInv at hinv
        rw [he] at hinv
        simp only at hinv
        obtain ⟨h1, h2, ⟨xs, hpage, hsent⟩, h4, h5⟩ := hinv
        split at h
        · rename_i hcomp
          cases h
          subst hcomp
          unfold EnumInv
          simp only [Nat.add_sub_cancel]
          have hpage2 : c.getURLsPage env (page - 1 + 1) = PageOutcome.items xs true := by
            rw [show page - 1 + 1 = page by omega]; exact hpage
          refine ⟨by omega, ?_, ?_, ?_, h5⟩
          · have := passes_succ c env (page - 1) xs h2 hpage2
            rwa [show page - 1 + 1 = page by omega] at this
          · have hs : c.sendsUpTo env page = c.sendsUpTo env (page - 1) ++ xs := by
              conv_lhs => rw [show page = page - 1 + 1 by omega]
              simp only [Crawler.sendsUpTo, Crawler.pageSends, hpage2]
            rw [hs, ← hsent, List.append_nil]
          · exact h4
        · cases h
          unfold EnumInv
          simp only [Sys.panic, he]
          exact ⟨h1, h2, ⟨xs, hpage, hsent⟩, h4, h5⟩
      · rename_i page x rest completes he
        unfold EnumInv at hinv
        rw [he] at hinv
        simp only at hinv
        obtain ⟨h1, h2, ⟨xs, hpage, hsent⟩, h4, h5⟩ := hinv
        have key : ∀ q, Pool.step c env s.pool
            (match target with
             | none => PoolAction.send x
             | some i => PoolAction.handoff x i) = some q →
            EnumInv c env
              (Sys.settle { s with enum := EnumPc.emitting page rest completes, pool := q }) := by
          intro q hq
          obtain ⟨hs, hc⟩ := Pool.step_send c env s.pool q x target h5 hq
          apply EnumInv.settle
          unfold EnumInv
          simp only
          refine ⟨h1, h2, ⟨xs, hpage, ?_⟩, h4, hc⟩
          rw [hs, List.append_assoc]
          exact hsent
        rw [Option.map_eq_some'] at h
        obtain ⟨q, hq, rfl⟩ := h
        exact key q hq
    | worker a =>
      simp only at h
      split at h
      · rename_i hb
        cases hq : Pool.step c env s.pool a with
        | none => rw [hq] at h; cases h
        | some q =>
          rw [hq] at h
          cases h
          obtain ⟨h1, h2⟩ := Pool.step_keeps_sent c env s.pool q a (Or.inl hb) hq
          exact EnumInv.settle c env _ (hinv.congr c env s _ rfl h1 rfl h2)
      · cases h

theorem enumInv_init (c : Crawler) (env : Env) (fs : FS) : EnumInv c env (Sys.init fs) :=
  ⟨rfl, rfl, rfl⟩

theorem Sys.enum_run_inv (c : Crawler) (env : Env) (fs0 : FS) (acts : List SysAction) :
    ∀ (s t : Sys), SysInv c fs0 s → EnumInv c env s → Sys.run c env acts s = some t →
      EnumInv c env t := by
  induction acts with
  | nil =>
    intro s t _ hinv h
    simp only [Sys.run, Option.some.injEq] at h
    exact h ▸ hinv
  | cons a rest ih =>
    intro s t hsys hinv h
    simp only [Sys.run] at h
    split at h
    · cases h
    · rename_i r hr
      exact ih r t (Sys.sys_step_inv c env fs0 s r a hsys hr)
        (Sys.enum_step_inv c env fs0 s r a hsys hinv hr) h

theorem pagesItems_succ (urls md5 : Nat → List Str) (n : Nat) :
    ∀ p, pagesItems urls md5 p (n + 1)
      = pagesItems urls md5 p n ++ workItems (urls (p + n)) (md5 (p + n)) := by
  induction n with
  | zero => intro p; simp [pagesItems]
  | succ n ih =>
    intro p
    rw [pagesItems, ih (p + 1), pagesItems, List.append_assoc,
      show p + 1 + n = p + (n + 1) by omega]

theorem sendsUpTo_eq_pagesItems (c : Crawler) (env : Env) (urls md5 : Nat → List Str) (n : Nat)
    (h : ∀ j, 1 ≤ j → j ≤ n →
      c.getURLsPage env j = PageOutcome.items (workItems (urls j) (md5 j)) true) :
    c.sendsUpTo env n = pagesItems urls md5 1 n := by
  induction n with
  | zero => rfl
  | succ n ih =>
    rw [Crawler.sendsUpTo, ih (fun j h1 h2 => h j h1 (by omega)), pagesItems_succ,
      Crawler.pageSends, h (n + 1) (by omega) (Nat.le_refl _), show 1 + n = n + 1 by omega]

theorem sendsUpTo_mono (c : Crawler) (env : Env) (n m : Nat) (h : n ≤ m) :
    ∃ rest, c.sendsUpTo env n ++ rest = c.sendsUpTo env m := by
  induction m with
  | zero =>
    have : n = 0 := by omega
    subst this
    exact ⟨[], by simp⟩
  | succ m ih =>
    by_cases hn : n = m + 1
    · subst hn; exact ⟨[], by simp⟩
    · obtain ⟨rest, hrest⟩ := ih (by omega)
      exact ⟨rest ++ c.pageSends env (m + 1), by
        rw [Crawler.sendsUpTo, ← hrest, List.append_assoc]⟩

theorem range'_initial (n m : Nat) (h : n ≤ m) :
    ∃ rest, List.range' 1 n ++ rest = List.range' 1 m :=
  ⟨List.range' (1 + n) (m - n), by
    have := @List.range'_append 1 n (m - n) 1
    simp only [Nat.one_mul] at this
    rw [this, show m - n + n = m by omega]⟩

theorem enumInv_trace (c : Crawler) (env : Env) (urls md5 : Nat → List Str) (k : Nat) (s : Sys)
    (hinv : EnumInv c env s) (hk : 1 ≤ k)
    (hend : c.getURLsPage env k = PageOutcome.endOfResults)
    (hitems : ∀ j, 1 ≤ j → j < k →
      c.getURLsPage env j = PageOutcome.items (workItems (urls j) (md5 j)) true) :
    (∃ rest, s.pool.sent ++ rest = pagesItems urls md5 1 (k - 1))
    ∧ (∃ rest, s.pages ++ rest = List.range' 1 k)
    ∧ (s.pool.requestsClosed = true →
        s.pool.sent = pagesItems urls md5 1 (k - 1) ∧ s.pages = List.range' 1 k) := by
  have hall : c.sendsUpTo env (k - 1) = pagesItems urls md5 1 (k - 1) :=
    sendsUpTo_eq_pagesItems c env urls md5 (k - 1) (fun j h1 h2 => hitems j h1 (by omega))
  have hbound : ∀ n, c.passes env n → n < k := by
    intro n hn
    by_contra hlt
    obtain ⟨xs, hx⟩ := hn k hk (by omega)
    rw [hend] at hx; cases hx
  unfold EnumInv at hinv
  split at hinv
  · obtain ⟨h1, h2, h3⟩ := hinv
    rw [h1, h2, h3]
    exact ⟨⟨_, List.nil_append _⟩, ⟨_, List.nil_append _⟩, fun h => by cases h⟩
  · rename_i p _
    obtain ⟨h1, h2, h3, h4, h5⟩ := hinv
    have hp := hbound _ h2
    rw [h3, h4, h5, ← hall]
    exact ⟨sendsUpTo_mono c env _ _ (by omega), range'_initial _ _ (by omega),
      fun h => by cases h⟩
  · rename_i p _
    obtain ⟨h1, h2, h3, h4, h5⟩ := hinv
    have hp := hbound _ h2
    rw [h3, h4, h5, ← hall]
    exact ⟨sendsUpTo_mono c env _ _ (by omega), range'_initial _ _ (by omega),
      fun h => by cases h⟩
  · rename_i p pending b _
    obtain ⟨h1, h2, ⟨xs, hpage, hsent⟩, h4, h5⟩ := hinv
    have hp := hbound _ h2
    have hpk : p ≠ k := by
      intro hpk
      rw [hpk, hend] at hpage; cases hpage
    have hup : c.sendsUpTo env p = c.sendsUpTo env (p - 1) ++ xs := by
      conv_lhs => rw [show p = p - 1 + 1 by omega]
      rw [Crawler.sendsUpTo, Crawler.pageSends, show p - 1 + 1 = p by omega, hpage]
    obtain ⟨rest, hrest⟩ := sendsUpTo_mono c env p (k - 1) (by omega)
    rw [h4, h5, ← hall]
    refine ⟨⟨pending ++ rest, ?_⟩, range'_initial _ _ (by omega), fun h => by cases h⟩
    rw [← List.append_assoc, hsent, ← hup, hrest]
  · obtain ⟨p, h1, h2, h3, h4, h5, h6⟩ := hinv
    have hp := hbound _ h2
    have hpk : p = k := by
      by_contra hne
      have := hitems p h1 (by omega)
      rw [h3] at this; cases this
    subst hpk
    rw [h4, h5, ← hall]
    exact ⟨⟨[], List.append_nil _⟩, ⟨[], List.append_nil _⟩, fun _ => ⟨rfl, rfl⟩⟩

theorem enumInv_open (c : Crawler) (env : Env) (s : Sys) (hinv : EnumInv c env s)
    (hpages : ∀ j, 1 ≤ j → c.getURLsPage env j ≠ PageOutcome.endOfResults) :
    s.pool.requestsClosed = false := by
  unfold EnumInv at hinv
  split at hinv
  · exact hinv.2.2
  · exact hinv.2.2.2.2
  · exact hinv.2.2.2.2
  · exact hinv.2.2.2.2
  · obtain ⟨p, h1, _, h3, _⟩ := hinv
    exact absurd h3 (hpages p h1)

theorem Pool.step_send_ok (c : Crawler) (env : Env) (p q : Pool) (x : httpRequest)
    (target : Option Nat) (hopen : p.requestsClosed = false)
    (h : Pool.step c env p
      (match target with
       | none => PoolAction.send x
       | some i => PoolAction.handoff x i) = some q) :
    q.panicked = false := by
  have hp := Pool.step_not_panicked c env p q _ h
  cases target with
  | none =>
    simp only [Pool.step, hp, hopen, Bool.false_eq_true, if_false] at h
    split at h
    · cases h; rfl
    · cases h
  | some i =>
    simp only [Pool.step, hp, hopen, Bool.false_eq_true, if_false] at h
    split at h
    · cases h; rfl
    · cases h

theorem Pool.step_closeIn_ok (c : Crawler) (env : Env) (p q : Pool)
    (hopen : p.requestsClosed = false) (h : Pool.step c env p PoolAction.closeIn = some q) :
    q.panicked = false := by
  have hp := Pool.step_not_panicked c env p q _ h
  simp only [Pool.step, hp, hopen, Bool.false_eq_true, if_false] at h
  cases h; rfl

theorem Pool.step_no_worker (c : Crawler) (env : Env) (p : Pool) (a : PoolAction)
    (hb : a.byWorker = true) (hw : p.workers = []) (hs : p.started = false) :
    Pool.step c env p a = none := by
  unfold Pool.step
  split
  · rfl
  · cases a <;> simp [PoolAction.byWorker] at hb <;> simp [hw, hs]

theorem Sys.settle_main (t : Sys) : t.settle.main = t.main := by
  unfold Sys.settle; split <;> rfl

theorem Sys.settle_enum (t : Sys) : t.settle.enum = t.enum := by
  unfold Sys.settle; split <;> rfl

theorem Sys.settle_pool (t : Sys) : t.settle.pool = t.pool := by
  unfold Sys.settle; split <;> rfl

theorem countedInv_init (c : Crawler) (env : Env) (fs : FS) : CountedInv c env (Sys.init fs) := by
  intro t hm
  cases hm

theorem Sys.counted_step_inv (c : Crawler) (env : Env) (fs0 : FS) (s t : Sys) (a : SysAction)
    (hsys : SysInv c fs0 s) (hinv : EnumInv c env s) (h : Sys.step c env s a = some t) :
    CountedInv c env t := by
  obtain ⟨hpf, _⟩ := Sys.step_enabled c env s t a h
  intro total hm hp
  unfold Sys.step at h
  split at h
  · cases h
  · cases a with
    | main =>
      simp only at h
      split at h
      · rename_i hmain
        split at h <;> cases h
        · simp only [Sys.panic, hmain] at hm; cases hm
        · cases hm
      · rename_i hmain
        split at h <;> cases h
        · simp only [Sys.panic, hmain] at hm; cases hm
        · simp only [hpf] at hp; cases hp
      · split at h
        · cases h
          simp only [hpf] at hp; cases hp
        · rw [Option.map_eq_some'] at h
          obtain ⟨q, _, rfl⟩ := h
          rw [Sys.settle_main] at hm
          cases hm
      · split at h <;> cases h
        cases hm
      · cases h
    | enum target =>
      simp only at h
      split at h
      · cases h
      · cases h
      · cases h
        simp only [hpf] at hp; cases hp
      · rename_i page he
        unfold EnumInv at hinv
        rw [he] at hinv
        simp only at hinv
        obtain ⟨_, _, _, _, hopen⟩ := hinv
        split at h
        · rename_i hpage
          cases h
          exact Or.inl ⟨page, he, hpage⟩
        · rw [Option.map_eq_some'] at h
          obtain ⟨q, hq, rfl⟩ := h
          rw [Sys.settle_pool] at hp
          have := Pool.step_closeIn_ok c env s.pool q hopen hq
          simp only [this] at hp; cases hp
        · cases h
          simp only [hpf] at hp; cases hp
      · rename_i page completes he
        split at h
        · cases h
          simp only [hpf] at hp; cases hp
        · rename_i hcomp
          cases h
          have hfalse : completes = false := by simpa using hcomp
          subst hfalse
          exact Or.inr ⟨page, he⟩
      · rename_i page x rest completes he
        unfold EnumInv at hinv
        rw [he] at hinv
        simp only at hinv
        obtain ⟨_, _, _, _, hopen⟩ := hinv
        rw [Option.map_eq_some'] at h
        obtain ⟨q, hq, rfl⟩ := h
        rw [Sys.settle_pool] at hp
        have := Pool.step_send_ok c env s.pool q x target hopen hq
        simp only [this] at hp; cases hp
    | worker a =>
      simp only at h
      split at h
      · rename_i hb
        rw [Option.map_eq_some'] at h
        obtain ⟨q, hq, rfl⟩ := h
        rw [Sys.settle_main] at hm
        have hs := hsys.unstarted (Or.inr (Or.inr ⟨total, hm⟩))
        have hw := (hsys.pool.fresh hs).1
        rw [Pool.step_no_worker c env s.pool a hb hw hs] at hq
        cases hq
      · cases h

theorem Sys.counted_run_inv (c : Crawler) (env : Env) (fs0 : FS) (acts : List SysAction) :
    ∀ (s t : Sys), SysInv c fs0 s → EnumInv c env s → CountedInv c env s →
      Sys.run c env acts s = some t → CountedInv c env t := by
  induction acts with
  | nil =>
    intro s t _ _ hinv h
    simp only [Sys.run, Option.some.injEq] at h
    exact h ▸ hinv
  | cons a rest ih =>
    intro s t hsys henum _ h
    simp only [Sys.run] at h
    split at h
    · cases h
    · rename_i r hr
      exact ih r t (Sys.sys_step_inv c env fs0 s r a hsys hr)
        (Sys.enum_step_inv c env fs0 s r a hsys henum hr)
        (Sys.counted_step_inv c env fs0 s r a hsys henum hr) h

/-! ## C1: the dedup short-circuit -/

/-- Claim C1 (amended): when neither the destination folder nor the content hash
holds a character that is magic for `filepath.Glob` (`*`, `?`, `[`, `\`) and the files
contain `destinationFolder/<md5>.<ext>` for some extension (a text without a
separator), one iteration of an
`asyncDownload` worker on the request sends false, passes no URL to `fetch` and
leaves the files as they are; in the pool, the glob step of a worker holding the
request sends false on the results channel, leaves the files unchanged and takes
the worker back to its receive without entering `fetch`. -/
theorem asyncDownload_skips_existing (c : Crawler) (env : Env) (fs : FS) (request : httpRequest)
    (ext : Str)
    (hdest : ∀ ch ∈ c.destinationFolder, isMagic ch = false)
    (hmd5 : ∀ ch ∈ infoGet request.info "md5".toList, isMagic ch = false)
    (hext : '/' ∉ ext)
    (hfile : (c.destinationFolder ++ "/".toList ++ infoGet request.info "md5".toList
                ++ '.' :: ext) ∈ fs.map Prod.fst) :
    c.asyncDownloadItem env fs request = ⟨some false, [], fs⟩
    ∧ ∀ (p : Pool) (i : Nat), p.panicked = false → p.fs = fs →
        p.workers[i]? = some (Worker.holding request) →
        Pool.step c env p (PoolAction.check i)
          = some { p with ch := p.ch ++ [false], workers := p.workers.set i Worker.idle } := by
  have h := alreadyThere_of_file c fs request ext hdest hmd5 hext hfile
  refine ⟨by simp [Crawler.asyncDownloadItem, h], ?_⟩
  intro p i hp hfs hw
  subst hfs
  simp [Pool.step, hp, hw, h]

/-- Witness of C1: `images/abc.jpg` is present and the item with content hash `abc`
is skipped. -/
theorem asyncDownload_skips_existing_witness :
    (exCrawler "images" 2).asyncDownloadItem (exEnv "new")
        [("images/abc.jpg".toList, "old".toList)] (exItem "http://h/abc.jpg" "abc")
      = ⟨some false, [], [("images/abc.jpg".toList, "old".toList)]⟩ :=
  (asyncDownload_skips_existing (exCrawler "images" 2) (exEnv "new")
    [("images/abc.jpg".toList, "old".toList)] (exItem "http://h/abc.jpg" "abc")
    "jpg".toList (by decide) (by decide) (by decide) (by decide)).1

/-- Counterexample of C1 as stated: in the destination folder `img[1]` the file
`abc.jpg` is present, yet the glob pattern `img[1]/abc.*` reads `[1]` as a character
class and matches nothing: the worker fetches the item, sends true and overwrites
the file. -/
theorem asyncDownload_refetches_under_magic_folder :
    ((exCrawler "img[1]" 2).destinationFolder ++ "/".toList
        ++ infoGet (exItem "http://h/abc.jpg" "abc").info "md5".toList ++ '.' :: "jpg".toList)
      ∈ [("img[1]/abc.jpg".toList, "old".toList)].map Prod.fst
    ∧ (exCrawler "img[1]" 2).asyncDownloadItem (exEnv "new")
        [("img[1]/abc.jpg".toList, "old".toList)] (exItem "http://h/abc.jpg" "abc")
      = ⟨some true, ["http://h/abc.jpg".toList],
          [("img[1]/abc.jpg".toList, "new".toList)]⟩ := by
  decide

/-! ## C2: one token per request -/

/-- Claim C2: for every crawler with at least one worker, every initial files and
every run of the pool, whatever the producer of the work channel sends and whether or
not a fetch or a write fails: in a state in which the results channel is closed
the number of tokens sent on it is the number of requests sent on the work
channel, that channel is closed and drained and every worker has left.  Every
step sends at most one token: false by the glob step of a worker whose request
matched an existing file, with the files unchanged, or true by the step that
fetched the request of a worker and wrote its file. -/
theorem asyncDownload_one_token_per_item (c : Crawler) (env : Env) (fs : FS)
    (acts : List PoolAction) (p : Pool)
    (hworkers : 1 ≤ c.maxWorkers)
    (hrun : Pool.run c env acts (Pool.init fs) = some p)
    (hclosed : p.chClosed = true) :
    (p.ch.length = p.sent.length ∧ p.requestsClosed = true ∧ p.requests = []
      ∧ ∀ w ∈ p.workers, w = Worker.exited)
    ∧ ∀ (p1 p2 : Pool) (a : PoolAction), Pool.step c env p1 a = some p2 →
        p2.ch = p1.ch
        ∨ (∃ (i : Nat) (r : httpRequest), p1.workers[i]? = some (Worker.holding r)
            ∧ c.alreadyThere p1.fs r = true ∧ p2.ch = p1.ch ++ [false] ∧ p2.fs = p1.fs)
        ∨ (∃ (i : Nat) (r : httpRequest) (response : httpResponse),
            p1.workers[i]? = some (Worker.fetching r)
            ∧ c.fetch env r = some response ∧ response.resp.readErr = false
            ∧ p2.ch = p1.ch ++ [true]
            ∧ p2.fs = writeFile p1.fs (c.targetPath r) response.resp.body) :=
  ⟨PoolInv.closed_all_answered c fs p
      (Pool.pool_run_inv c env fs acts (Pool.init fs) p (PoolInv.pool_init c fs) hrun)
      hworkers hclosed,
    fun p1 p2 a h => by
      rcases Pool.step_token c env p1 p2 a h with h1 | ⟨i, r, h2⟩ | ⟨i, r, response, h3⟩
      · exact Or.inl h1
      · exact Or.inr (Or.inl ⟨i, r, h2⟩)
      · exact Or.inr (Or.inr ⟨i, r, response, h3⟩)⟩

/-- Witness of C2: one worker, two requests, the second already downloaded. -/
theorem asyncDownload_one_token_per_item_witness :
    (Pool.runD (exCrawler "images" 1) (exEnv "new") exPoolRun
        (Pool.init [("images/b2.png".toList, "old".toList)])).ch.length
      = (Pool.runD (exCrawler "images" 1) (exEnv "new") exPoolRun
        (Pool.init [("images/b2.png".toList, "old".toList)])).sent.length :=
  (asyncDownload_one_token_per_item (exCrawler "images" 1) (exEnv "new")
    [("images/b2.png".toList, "old".toList)] exPoolRun
    (Pool.runD (exCrawler "images" 1) (exEnv "new") exPoolRun
      (Pool.init [("images/b2.png".toList, "old".toList)]))
    (by decide) (by decide) (by decide)).1.1

/-! ## C3: enumeration up to the first empty page -/

/-- Claim C3: for every sequence of result pages that are fetched and whose
content-hash and download-URL sequences have the same length: if page `k` is the
first with an empty content-hash sequence then, with fuel for `k` rounds or more,
the goroutine of `getURLs` sends exactly the work items of pages `1..k-1`, in
page order and index order, requests exactly the pages `1..k` and closes the
channel without a panic; and in every reachable state of the whole process the
requests sent so far are an initial segment of those work items, the pages
requested an initial segment of `1..k`, and both are complete once the work
channel is closed.  If no page has an empty content-hash sequence the channel
is not closed, whatever the fuel and in every reachable state of the process. -/
theorem getURLs_enumerates_until_empty_page (c : Crawler) (env : Env) (pages : Nat → Response)
    (hget : ∀ p, 1 ≤ p → httpGet env (pageURL c p) = some (pages p))
    (hlen : ∀ p, 1 ≤ p → (gjsonArray (pages p).body "md5".toList).length
      = (gjsonArray (pages p).body c.format).length) :
    (∀ k, 1 ≤ k → gjsonArray (pages k).body "md5".toList = [] →
      (∀ j, 1 ≤ j → j < k → gjsonArray (pages j).body "md5".toList ≠ []) →
      (∀ fuel, k ≤ fuel →
        c.getURLsLoop env fuel 1
          = ⟨pagesItems (fun p => gjsonArray (pages p).body c.format)
                (fun p => gjsonArray (pages p).body "md5".toList) 1 (k - 1),
              List.range' 1 k, true, false⟩)
      ∧ ∀ (fs : FS) (acts : List SysAction) (s : Sys),
          Sys.run c env acts (Sys.init fs) = some s →
          (∃ rest, s.pool.sent ++ rest
              = pagesItems (fun p => gjsonArray (pages p).body c.format)
                  (fun p => gjsonArray (pages p).body "md5".toList) 1 (k - 1))
          ∧ (∃ rest, s.pages ++ rest = List.range' 1 k)
          ∧ (s.pool.requestsClosed = true →
              s.pool.sent
                = pagesItems (fun p => gjsonArray (pages p).body c.format)
                    (fun p => gjsonArray (pages p).body "md5".toList) 1 (k - 1)
              ∧ s.pages = List.range' 1 k))
    ∧ ((∀ p, 1 ≤ p → gjsonArray (pages p).body "md5".toList ≠ []) →
        (∀ fuel, (c.getURLsLoop env fuel 1).closed = false)
        ∧ ∀ (fs : FS) (acts : List SysAction) (s : Sys),
            Sys.run c env acts (Sys.init fs) = some s → s.pool.requestsClosed = false) := by
  have hitems : ∀ j, 1 ≤ j → gjsonArray (pages j).body "md5".toList ≠ [] →
      c.getURLsPage env j = PageOutcome.items
        (workItems (gjsonArray (pages j).body c.format) (gjsonArray (pages j).body "md5".toList))
        true := by
    intro j hj hne
    rw [getURLsPage_of_get c env j (pages j) (hget j hj),
      pageItems_of_le _ _ (Nat.le_of_eq (hlen j hj).symm)]
    have : (gjsonArray (pages j).body "md5".toList).length ≠ 0 := by
      simpa [List.length_eq_zero] using hne
    rw [if_neg this]
  have hreach : ∀ (fs : FS) (acts : List SysAction) (s : Sys),
      Sys.run c env acts (Sys.init fs) = some s → EnumInv c env s :=
    fun fs acts s hrun =>
      Sys.enum_run_inv c env fs acts (Sys.init fs) s (SysInv.sys_init c fs)
        (enumInv_init c env fs) hrun
  constructor
  · intro k hk hempty hfirst
    have hend : c.getURLsPage env k = PageOutcome.endOfResults := by
      rw [getURLsPage_of_get c env k (pages k) (hget k hk), hempty]
      simp
    constructor
    · intro fuel hfuel
      have hend2 : c.getURLsPage env (1 + (k - 1)) = PageOutcome.endOfResults := by
        rw [show 1 + (k - 1) = k by omega]; exact hend
      have := getURLsLoop_until c env (fun p => gjsonArray (pages p).body c.format)
        (fun p => gjsonArray (pages p).body "md5".toList) (k - 1) 1 fuel (by omega)
        (fun j h1 h2 => hitems j h1 (hfirst j h1 (by omega))) hend2
      rw [this, show k - 1 + 1 = k by omega]
    · intro fs acts s hrun
      exact enumInv_trace c env (fun p => gjsonArray (pages p).body c.format)
        (fun p => gjsonArray (pages p).body "md5".toList) k s (hreach fs acts s hrun) hk hend
        (fun j h1 h2 => hitems j h1 (hfirst j h1 h2))
  · intro hne
    constructor
    · intro fuel
      exact getURLsLoop_never_closes c env (fun j hj => ⟨_, _, hitems j hj (hne j hj)⟩) fuel 1
        (Nat.le_refl 1)
    · intro fs acts s hrun
      refine enumInv_open c env s (hreach fs acts s hrun) ?_
      intro j hj hcontra
      rw [hitems j hj (hne j hj)] at hcontra
      cases hcontra

/-- Witness of C3: a first page of two posts followed by an empty page. -/
theorem getURLs_enumerates_until_empty_page_witness :
    (exCrawler "images" 2).getURLsLoop
        (exOnePage (exCrawler "images" 2)
          ⟨exPage [exPost "a1" "http://h/1.jpg", exPost "b2" "http://h/2.png"], false⟩) 5 1
      = ⟨[exItem "http://h/1.jpg" "a1", exItem "http://h/2.png" "b2"], [1, 2], true, false⟩ :=
  (((getURLs_enumerates_until_empty_page (exCrawler "images" 2)
    (exOnePage (exCrawler "images" 2)
      ⟨exPage [exPost "a1" "http://h/1.jpg", exPost "b2" "http://h/2.png"], false⟩)
    (pageOf (exCrawler "images" 2) (exOnePage (exCrawler "images" 2)
      ⟨exPage [exPost "a1" "http://h/1.jpg", exPost "b2" "http://h/2.png"], false⟩))
    (by
      intro p _
      simp only [pageOf, exOnePage, httpGet]
      split <;> rfl)
    (by
      intro p _
      simp only [pageOf, exOnePage, httpGet]
      split <;> decide)).1 2 (by decide) (by decide)
    (by
      intro j h1 h2
      have : j = 1 := by omega
      subst this
      decide)).1
    5 (by decide)).trans (by decide)

/-! ## C4: a count of zero -/

/-- Claim C4 (amended): in every reachable state in which `start` holds a count
`total <= 0`, `asyncDownload` has not been called: there is no worker, no token
was sent and the files are untouched.  While the process runs, the next step
of the main goroutine is `os.Exit(0)`.  The process has ended with status 0,
without a panic, or else with status 2 by a panic of the enumerator goroutine
that `getURLs` spawned: a failed GET of a result page, or the index out of
range after the sends of a page. -/
theorem start_zero_count (c : Crawler) (env : Env) (fs : FS) (acts : List SysAction) (s : Sys)
    (total : Int)
    (hrun : Sys.run c env acts (Sys.init fs) = some s)
    (hmain : s.main = MainPc.counted total) (hzero : total ≤ 0) :
    s.pool.started = false ∧ s.pool.workers = [] ∧ s.pool.ch = [] ∧ s.pool.fs = fs
    ∧ (∀ code, s.exit = some code →
        (code = 0 ∧ s.pool.panicked = false)
        ∨ (code = 2
            ∧ ((∃ p, s.enum = EnumPc.fetching p
                  ∧ c.getURLsPage env p = PageOutcome.netError)
              ∨ (∃ p, s.enum = EnumPc.emitting p [] false))))
    ∧ (s.exit = none →
        Sys.step c env s SysAction.main = some { s with exit := some 0 }) := by
  have hinv := Sys.sys_run_inv c env fs acts (Sys.init fs) s (SysInv.sys_init c fs) hrun
  have hcounted := Sys.counted_run_inv c env fs acts (Sys.init fs) s (SysInv.sys_init c fs)
    (enumInv_init c env fs) (countedInv_init c env fs) hrun
  have hs := hinv.unstarted (Or.inr (Or.inr ⟨total, hmain⟩))
  obtain ⟨hw, hch, hfs, _⟩ := hinv.pool.fresh hs
  refine ⟨hs, hw, hch, hfs, ?_, ?_⟩
  · intro code hc
    rcases hinv.exitCode code hc with h0 | ⟨h2, hp⟩
    · exact Or.inl h0
    · exact Or.inr ⟨h2, hcounted total hmain hp⟩
  · intro hexit
    have hpanic : s.pool.panicked = false := by
      cases hp : s.pool.panicked with
      | false => rfl
      | true =>
        have := hinv.panicExit hp
        rw [hexit] at this
        cases this
    simp [Sys.step, hexit, hpanic, hmain, hzero]

/-- Witness of C4: the count document reports zero posts. -/
theorem start_zero_count_witness :
    (Sys.runD (exCrawler "images" 2) exZeroSite [SysAction.main, SysAction.main]
        (Sys.init [])).pool.started = false
    ∧ Sys.step (exCrawler "images" 2) exZeroSite
        (Sys.runD (exCrawler "images" 2) exZeroSite [SysAction.main, SysAction.main]
          (Sys.init [])) SysAction.main
      = some { Sys.runD (exCrawler "images" 2) exZeroSite [SysAction.main, SysAction.main]
          (Sys.init []) with exit := some 0 } :=
  ⟨(start_zero_count (exCrawler "images" 2) exZeroSite [] [SysAction.main, SysAction.main]
      (Sys.runD (exCrawler "images" 2) exZeroSite [SysAction.main, SysAction.main] (Sys.init []))
      0 (by decide) (by decide) (by decide)).1,
    (start_zero_count (exCrawler "images" 2) exZeroSite [] [SysAction.main, SysAction.main]
      (Sys.runD (exCrawler "images" 2) exZeroSite [SysAction.main, SysAction.main] (Sys.init []))
      0 (by decide) (by decide) (by decide)).2.2.2.2.2 (by decide)⟩

/-- Counterexample of C4 as stated: the count is zero, yet before `start` exits
with status 0 the enumerator, spawned inside `getURLs`, has requested page 1,
found it empty and closed the work channel; on a site whose page 1 holds a post
all the same, it has queued the work item of that post on the work channel; and
on a site whose page 1 cannot be fetched, it has panicked and the process has
ended with status 2. -/
theorem start_zero_count_enumerates_first :
    ((exCrawler "images" 2).getURLsCount exEmptySite = some 0
      ∧ (Sys.run (exCrawler "images" 2) exEmptySite exEmptyRun (Sys.init [])).map
          (fun s => (s.main, s.exit, s.pages, s.enum, s.pool.requestsClosed))
        = some (MainPc.counted 0, some 0, [1], EnumPc.done, true))
    ∧ ((exCrawler "images" 2).getURLsCount exZeroSite = some 0
      ∧ (Sys.run (exCrawler "images" 2) exZeroSite exZeroRun (Sys.init [])).map
          (fun s => (s.main, s.exit, s.pages, s.pool.sent, s.pool.requests))
        = some (MainPc.counted 0, some 0, [1], [exItem "http://h/1.jpg" "a1"],
            [exItem "http://h/1.jpg" "a1"]))
    ∧ ((exCrawler "images" 2).getURLsCount exDeadSite = some 0
      ∧ (Sys.run (exCrawler "images" 2) exDeadSite exDeadRun (Sys.init [])).map
          (fun s => (s.main, s.exit, s.pages, s.enum, s.pool.started))
        = some (MainPc.counted 0, some 2, [1], EnumPc.fetching 1, false)) :=
  ⟨⟨by decide, by decide⟩, ⟨by decide, by decide⟩, by decide, by decide⟩

/-! ## C5: pages with sequences of different lengths -/

/-- Claim C5 (amended): `getURLs` does not compare the two lengths.  A page with a
non-empty content-hash sequence and fewer download URLs is accepted: its URLs
are sent paired with the first content hashes and the loop goes on to the next
page.  A page with more download URLs than content hashes has the first
`len(md5)` pairs sent and then panics on the index out of range.  In the
process, the step of the enumerator that reads such a page queues those pairs
for sending, with the loop completing in the first case and not in the second. -/
theorem getURLs_length_mismatch (c : Crawler) (env : Env) (page fuel : Nat)
    (response : Response)
    (hget : httpGet env (pageURL c page) = some response)
    (hne : gjsonArray response.body "md5".toList ≠ []) :
    ((gjsonArray response.body c.format).length < (gjsonArray response.body "md5".toList).length →
      c.getURLsLoop env (fuel + 1) page
          = ⟨workItems (gjsonArray response.body c.format) (gjsonArray response.body "md5".toList)
                ++ (c.getURLsLoop env fuel (page + 1)).sent,
              page :: (c.getURLsLoop env fuel (page + 1)).requested,
              (c.getURLsLoop env fuel (page + 1)).closed,
              (c.getURLsLoop env fuel (page + 1)).panicked⟩
        ∧ ∀ (s : Sys) (target : Option Nat), s.pool.panicked = false → s.exit = none →
            s.enum = EnumPc.fetching page →
            Sys.run c env [SysAction.enum target] s
              = some { s with
                  enum := EnumPc.emitting page
                    (workItems (gjsonArray response.body c.format)
                      (gjsonArray response.body "md5".toList)) true })
    ∧ ((gjsonArray response.body "md5".toList).length < (gjsonArray response.body c.format).length →
      c.getURLsLoop env (fuel + 1) page
          = ⟨workItems (gjsonArray response.body c.format) (gjsonArray response.body "md5".toList),
              [page], false, true⟩
        ∧ ∀ (s : Sys) (target : Option Nat), s.pool.panicked = false → s.exit = none →
            s.enum = EnumPc.fetching page →
            Sys.run c env [SysAction.enum target] s
              = some { s with
                  enum := EnumPc.emitting page
                    (workItems (gjsonArray response.body c.format)
                      (gjsonArray response.body "md5".toList)) false }) := by
  have hlen : (gjsonArray response.body "md5".toList).length ≠ 0 := by
    simpa [List.length_eq_zero] using hne
  have hpage := getURLsPage_of_get c env page response hget
  rw [if_neg hlen] at hpage
  constructor
  · intro h
    rw [pageItems_of_le _ _ (Nat.le_of_lt h)] at hpage
    refine ⟨by simp [Crawler.getURLsLoop, hpage], ?_⟩
    intro s target hp hexit he
    simp [Sys.run, Sys.step, hp, hexit, he, hpage]
  · intro h
    rw [pageItems_of_gt _ _ h] at hpage
    refine ⟨by simp [Crawler.getURLsLoop, hpage], ?_⟩
    intro s target hp hexit he
    simp [Sys.run, Sys.step, hp, hexit, he, hpage]

/-- Witness of C5: a page with two content hashes and one URL, followed by an
empty page. -/
theorem getURLs_length_mismatch_witness :
    (exCrawler "images" 2).getURLsLoop
        (exOnePage (exCrawler "images" 2)
          ⟨exPage [exPost "a1" "http://h/1.jpg", exPostNoUrl "b2"], false⟩) 2 1
      = ⟨[exItem "http://h/1.jpg" "a1"], [1, 2], true, false⟩ :=
  ((getURLs_length_mismatch (exCrawler "images" 2)
    (exOnePage (exCrawler "images" 2)
      ⟨exPage [exPost "a1" "http://h/1.jpg", exPostNoUrl "b2"], false⟩) 1 1
    ⟨exPage [exPost "a1" "http://h/1.jpg", exPostNoUrl "b2"], false⟩
    (by decide) (by decide)).1 (by decide)).1.trans (by decide)

/-- Counterexample of C5 as stated: page 1 holds two content hashes and one
download URL; the goroutine sends the one pair, requests page 2 and closes the
channel, without any error. -/
theorem getURLs_accepts_short_url_list :
    (gjsonArray (exPage [exPost "a1" "http://h/1.jpg", exPostNoUrl "b2"])
        "md5".toList).length = 2
    ∧ (gjsonArray (exPage [exPost "a1" "http://h/1.jpg", exPostNoUrl "b2"])
        (exCrawler "images" 2).format).length = 1
    ∧ (exCrawler "images" 2).getURLsLoop
        (exSite (exCrawler "images" 2) "<posts count=\"2\" offset=\"0\"/>"
          [⟨exPage [exPost "a1" "http://h/1.jpg", exPostNoUrl "b2"], false⟩,
            ⟨exPage [], false⟩]) 3 1
      = ⟨[exItem "http://h/1.jpg" "a1"], [1, 2], true, false⟩ := by
  decide

/-! ## C6: the name of a downloaded file -/

/-- Claim C6 (amended): for every work item an `asyncDownload` worker downloads (no
existing file matched, the GET, the create and the copy succeed) the file it
creates is `destinationFolder/<md5>` followed by the extension it derives from
the URL, the match of `.[a-z0-9]+$`; when the URL ends in a `.` followed by one
or more characters of `[a-z0-9]`, that extension is this trailing dot-suffix, so
the file is `destinationFolder/<md5>.<ext>`. -/
theorem asyncDownload_target_file (c : Crawler) (env : Env) (fs : FS) (request : httpRequest)
    (response : Response)
    (hmiss : c.alreadyThere fs request = false)
    (hget : httpGet env request.url = some response)
    (hcreate : env.create (c.targetPath request) = true)
    (hread : response.readErr = false) :
    c.asyncDownloadItem env fs request
        = ⟨some true, [request.url],
            writeFile fs (c.destinationFolder ++ "/".toList ++ infoGet request.info "md5".toList
              ++ FindString request.url) response.body⟩
    ∧ ∀ pre al : Str, request.url = pre ++ '.' :: al → al ≠ [] →
        (∀ ch ∈ al, isLowerAlnum ch = true) →
        FindString request.url = '.' :: al
        ∧ c.asyncDownloadItem env fs request
          = ⟨some true, [request.url],
              writeFile fs (c.destinationFolder ++ "/".toList
                ++ infoGet request.info "md5".toList ++ '.' :: al) response.body⟩ := by
  have h1 : c.asyncDownloadItem env fs request
        = ⟨some true, [request.url],
            writeFile fs (c.destinationFolder ++ "/".toList ++ infoGet request.info "md5".toList
              ++ FindString request.url) response.body⟩ :=
    asyncDownloadItem_download c env fs request response hmiss hget hcreate hread
  refine ⟨h1, ?_⟩
  intro pre al hurl hne hcls
  have h2 : FindString request.url = '.' :: al := by
    rw [hurl]; exact FindString_dot_suffix pre al hne hcls
  refine ⟨h2, ?_⟩
  rw [h1, h2]

/-- Witness of C6: `http://h/pic.jpg` with content hash `abc` is saved as
`images/abc.jpg`. -/
theorem asyncDownload_target_file_witness :
    (exCrawler "images" 2).asyncDownloadItem (exEnv "new") [] (exItem "http://h/pic.jpg" "abc")
      = ⟨some true, ["http://h/pic.jpg".toList],
          [("images/abc.jpg".toList, "new".toList)]⟩ :=
  (asyncDownload_target_file (exCrawler "images" 2) (exEnv "new") []
    (exItem "http://h/pic.jpg" "abc") ⟨"new".toList, false⟩
    (by decide) rfl (by decide) rfl).1

/-- Counterexample of C6 as stated: the trailing dot-suffix of `http://h/pic.JPG`
is `.JPG`, but the expression matches lower-case letters and digits only, the
derived extension is empty and the file is written as `images/abc`, a name
without a dot. -/
theorem asyncDownload_drops_upper_case_extension :
    trailingDotSuffix (exItem "http://h/pic.JPG" "abc").url = ".JPG".toList
    ∧ (exCrawler "images" 2).asyncDownloadItem (exEnv "new") [] (exItem "http://h/pic.JPG" "abc")
      = ⟨some true, ["http://h/pic.JPG".toList],
          [("images/abc".toList, "new".toList)]⟩ := by
  decide

/-! ## C7: downloading again -/

/-- Claim C7 (amended): when neither the destination folder nor the content hash
holds a character that is magic for `filepath.Glob` and the URL ends in a `.`
followed by one or more characters of `[a-z0-9]`, then once a worker has fetched
the item and written its file, that file is `destinationFolder/<md5>.<ext>`, and
processing the same item again, in any world and over any files that still hold
the written file, matches it, sends false, passes no URL to `fetch` and leaves
the files as they are. -/
theorem asyncDownload_idempotent (c : Crawler) (env : Env) (fs : FS)
    (request : httpRequest) (pre al : Str)
    (hdest : ∀ ch ∈ c.destinationFolder, isMagic ch = false)
    (hmd5 : ∀ ch ∈ infoGet request.info "md5".toList, isMagic ch = false)
    (hurl : request.url = pre ++ '.' :: al) (hne : al ≠ [])
    (hcls : ∀ ch ∈ al, isLowerAlnum ch = true)
    (hfirst : (c.asyncDownloadItem env fs request).token = some true) :
    (∃ body, (c.asyncDownloadItem env fs request).fs
        = writeFile fs (c.destinationFolder ++ "/".toList ++ infoGet request.info "md5".toList
            ++ '.' :: al) body)
    ∧ (c.destinationFolder ++ "/".toList ++ infoGet request.info "md5".toList ++ '.' :: al)
        ∈ (c.asyncDownloadItem env fs request).fs.map Prod.fst
    ∧ ∀ (env2 : Env) (fs2 : FS),
        (c.destinationFolder ++ "/".toList ++ infoGet request.info "md5".toList ++ '.' :: al)
          ∈ fs2.map Prod.fst →
        c.asyncDownloadItem env2 fs2 request = ⟨some false, [], fs2⟩ := by
  have hext : FindString request.url = '.' :: al := by
    rw [hurl]; exact FindString_dot_suffix pre al hne hcls
  obtain ⟨b, hb⟩ := asyncDownloadItem_written c env fs request hfirst
  have htarget : c.targetPath request
      = c.destinationFolder ++ "/".toList ++ infoGet request.info "md5".toList ++ '.' :: al := by
    rw [Crawler.targetPath, hext, Crawler.fileBasename]
  rw [htarget] at hb
  refine ⟨⟨b, hb⟩, ?_, ?_⟩
  · rw [hb, writeFile]
    exact List.mem_map.mpr ⟨(_, b), List.mem_cons_self _ _, rfl⟩
  · intro env2 fs2 hkeep
    have hthere := alreadyThere_of_file c fs2 request al hdest hmd5
      (lowerAlnum_no_slash al hcls) hkeep
    simp [Crawler.asyncDownloadItem, hthere]

/-- Witness of C7: after `http://h/pic.jpg` was saved as `images/abc.jpg`, and with
other files come and gone, the same item is skipped. -/
theorem asyncDownload_idempotent_witness :
    (exCrawler "images" 2).asyncDownloadItem (exEnv "newer")
        [("images/other.png".toList, "x".toList), ("images/abc.jpg".toList, "new".toList)]
        (exItem "http://h/pic.jpg" "abc")
      = ⟨some false, [],
          [("images/other.png".toList, "x".toList), ("images/abc.jpg".toList, "new".toList)]⟩ :=
  (asyncDownload_idempotent (exCrawler "images" 2) (exEnv "new")
    [("images/gone.png".toList, "y".toList)] (exItem "http://h/pic.jpg" "abc")
    "http://h/pic".toList "jpg".toList (by decide) (by decide) (by decide) (by decide)
    (by decide) (by decide)).2.2 (exEnv "newer")
    [("images/other.png".toList, "x".toList), ("images/abc.jpg".toList, "new".toList)]
    (by decide)

/-- Counterexample of C7 as stated: the download of `http://h/pic.JPG` is written
as `images/abc`, which the pattern `images/abc.*` does not match, so processing
the item again fetches it again and overwrites the file; and in the folder
`img[1]` the written `img[1]/abc.jpg` is not matched by `img[1]/abc.*` either. -/
theorem asyncDownload_overwrites_on_second_run :
    ((exCrawler "images" 2).asyncDownloadItem (exEnv "new") [] (exItem "http://h/pic.JPG" "abc")
        = ⟨some true, ["http://h/pic.JPG".toList], [("images/abc".toList, "new".toList)]⟩
      ∧ (exCrawler "images" 2).asyncDownloadItem (exEnv "newer")
          [("images/abc".toList, "new".toList)] (exItem "http://h/pic.JPG" "abc")
        = ⟨some true, ["http://h/pic.JPG".toList],
            [("images/abc".toList, "newer".toList)]⟩)
    ∧ ((exCrawler "img[1]" 2).asyncDownloadItem (exEnv "new") []
          (exItem "http://h/pic.jpg" "abc")
        = ⟨some true, ["http://h/pic.jpg".toList],
            [("img[1]/abc.jpg".toList, "new".toList)]⟩
      ∧ (exCrawler "img[1]" 2).asyncDownloadItem (exEnv "newer")
          [("img[1]/abc.jpg".toList, "new".toList)] (exItem "http://h/pic.jpg" "abc")
        = ⟨some true, ["http://h/pic.jpg".toList],
            [("img[1]/abc.jpg".toList, "newer".toList)]⟩) := by
  decide

/-! ## C8: pages that are not a list of posts -/

/-- Claim C8 (amended): a result page whose body holds no `[` and no opening brace
(an empty or unreadable body, a text or HTML page without them) gives `gjson`
nothing to read, whether or not reading it reported an error: the content-hash
sequence is empty, the goroutine of `getURLs` sends nothing for the page, closes
the work channel and returns without a panic, as for the page after the last
result; in the process, the step of the enumerator that reads such a page
closes the work channel. -/
theorem getURLs_closes_on_unparsed_page (c : Crawler) (env : Env) (page fuel : Nat)
    (data : Str) (readErr : Bool)
    (hget : httpGet env (pageURL c page) = some ⟨data, readErr⟩)
    (hdata : ∀ ch ∈ data, ch ≠ '[' ∧ ch ≠ '\x7b') :
    gjsonArray data "md5".toList = []
    ∧ c.getURLsPage env page = PageOutcome.endOfResults
    ∧ c.getURLsLoop env (fuel + 1) page = ⟨[], [page], true, false⟩
    ∧ ∀ (s : Sys) (target : Option Nat), s.pool.panicked = false → s.exit = none →
        s.enum = EnumPc.fetching page → s.pool.requestsClosed = false →
        Sys.step c env s (SysAction.enum target)
          = some { s with enum := EnumPc.done,
                          pool := { s.pool with requestsClosed := true } } := by
  have hmd5 := gjsonArray_bracketless data "md5".toList hdata
  have h : c.getURLsPage env page = PageOutcome.endOfResults := by
    rw [getURLsPage_of_get c env page _ hget]
    have hzero : (gjsonArray data "md5".toList).length = 0 := by rw [hmd5]; rfl
    exact if_pos hzero
  refine ⟨hmd5, h, by simp [Crawler.getURLsLoop, h], ?_⟩
  intro s target hp hexit he hopen
  simp [Sys.step, hp, hexit, he, h, Pool.step, hopen, Sys.settle]

/-- Witness of C8: an HTML page in place of page 1. -/
theorem getURLs_closes_on_unparsed_page_witness :
    (exCrawler "images" 2).getURLsLoop
        (exOnePage (exCrawler "images" 2) ⟨"<html>busy</html>".toList, false⟩) 1 1
      = ⟨[], [1], true, false⟩ :=
  (getURLs_closes_on_unparsed_page (exCrawler "images" 2)
    (exOnePage (exCrawler "images" 2) ⟨"<html>busy</html>".toList, false⟩) 1 0
    "<html>busy</html>".toList false (by decide) (by decide)).2.2.1

/-- Counterexample of C8 as stated: page 2 of three comes with an empty body and
a read error, or with a JSON object that reports an error; either way the
goroutine closes the work channel after the item of page 1, without a panic,
and never requests page 3. -/
theorem getURLs_takes_unreadable_page_for_the_end :
    (exCrawler "images" 2).getURLsLoop
        (exSite (exCrawler "images" 2) "<posts count=\"3\" offset=\"0\"/>"
          [⟨exPage [exPost "a1" "http://h/1.jpg"], false⟩, ⟨[], true⟩,
            ⟨exPage [exPost "c3" "http://h/3.jpg"], false⟩]) 4 1
      = ⟨[exItem "http://h/1.jpg" "a1"], [1, 2], true, false⟩
    ∧ (exCrawler "images" 2).getURLsLoop
        (exSite (exCrawler "images" 2) "<posts count=\"3\" offset=\"0\"/>"
          [⟨exPage [exPost "a1" "http://h/1.jpg"], false⟩,
            ⟨"\x7b\"success\":false,\"reason\":\"busy\"\x7d".toList, false⟩,
            ⟨exPage [exPost "c3" "http://h/3.jpg"], false⟩]) 4 1
      = ⟨[exItem "http://h/1.jpg" "a1"], [1, 2], true, false⟩ :=
  ⟨by decide, by decide⟩

/-! ## C9: the timeout -/

/-- Claim C9, at the default timeout of 120 s: the crawler built by `newCrawler`
holds a client with that timeout, but `fetch` issues its GET through
`http.DefaultClient`, whose timeout is zero (none): in a world that answers only
a client with the timeout of 120 s, a GET through the configured client is
answered and `fetch` fails.  For every crawler, `fetch` is the GET through
`http.DefaultClient`, whatever client the crawler holds. -/
theorem fetch_bypasses_configured_timeout :
    (newCrawler true "cat+rating:safe".toList 8 64 120000000000 "file".toList
        "images".toList).map
      (fun c => (c.httpClient.Timeout, DefaultClient.Timeout,
        exPatientEnv.get c.httpClient "http://h/1.jpg".toList,
        c.fetch exPatientEnv (exItem "http://h/1.jpg" "a1")))
      = some (120000000000, 0, some ⟨"image".toList, false⟩, none)
    ∧ ∀ (c : Crawler) (env : Env) (request : httpRequest),
        c.fetch env request
          = (env.get DefaultClient request.url).map
              (fun resp => ⟨request.url, resp, request.info⟩) := by
  refine ⟨by decide, ?_⟩
  intro c env request
  unfold Crawler.fetch httpGet
  cases env.get DefaultClient request.url <;> rfl

/-! ## C10: fetches in progress -/

/-- Claim C10 (amended): in every reachable state of a run of `start`, when
`maxWorkers` is not negative the workers inside `fetch` are at most
`maxWorkers`, and the calls of `fetch` in progress, the count fetch of the main
goroutine and the page fetch of the enumerator included, are at most
`maxWorkers + 1`; when `maxWorkers` is negative there is no worker and at most
one call of `fetch` is in progress. -/
theorem start_fetches_bounded (c : Crawler) (env : Env) (fs : FS) (acts : List SysAction)
    (s : Sys) (hrun : Sys.run c env acts (Sys.init fs) = some s) :
    (0 ≤ c.maxWorkers →
      (s.pool.workers.countP Worker.isFetching : Int) ≤ c.maxWorkers
      ∧ (s.fetchesInProgress : Int) ≤ c.maxWorkers + 1)
    ∧ (c.maxWorkers < 0 → s.pool.workers = [] ∧ s.fetchesInProgress ≤ 1) := by
  have hinv := Sys.sys_run_inv c env fs acts (Sys.init fs) s (SysInv.sys_init c fs) hrun
  have hlen := Sys.workers_le c fs s hinv
  have hcount : s.pool.workers.countP Worker.isFetching ≤ s.pool.workers.length :=
    List.countP_le_length _
  have htotal : s.fetchesInProgress ≤ c.maxWorkers.toNat + 1 := by
    unfold Sys.fetchesInProgress
    by_cases hm : s.main = MainPc.counting
    · have he := hinv.early (Or.inr hm)
      have hs := hinv.unstarted (Or.inr (Or.inl hm))
      have hw := (hinv.pool.fresh hs).1
      simp [hm, he, hw]
    · have henum : (match s.enum with
          | EnumPc.fetching _ => 1
          | _ => 0) ≤ 1 := by
        split <;> omega
      simp only [hm, if_false]
      omega
  constructor
  · intro hpos
    have hcast : ((c.maxWorkers.toNat : Nat) : Int) = c.maxWorkers := Int.toNat_of_nonneg hpos
    constructor
    · have : s.pool.workers.countP Worker.isFetching ≤ c.maxWorkers.toNat :=
        Nat.le_trans hcount hlen
      omega
    · omega
  · intro hneg
    have hzero : c.maxWorkers.toNat = 0 := by omega
    rw [hzero] at hlen htotal
    exact ⟨List.length_eq_zero.mp (Nat.le_zero.mp hlen), htotal⟩

/-- Witness of C10: the run of one worker with a page fetch beside a download. -/
theorem start_fetches_bounded_witness :
    ((Sys.runD (exCrawler "images" 1) (exOneSite 1) exBusyRun
        (Sys.init [])).fetchesInProgress : Int)
      ≤ (exCrawler "images" 1).maxWorkers + 1 :=
  ((start_fetches_bounded (exCrawler "images" 1) (exOneSite 1) [] exBusyRun
    (Sys.runD (exCrawler "images" 1) (exOneSite 1) exBusyRun (Sys.init [])) (by decide)).1
    (by decide)).2

/-- Counterexample of C10 as stated: with `maxWorkers = 1` the enumerator is inside
the fetch of page 2 while the worker is inside the fetch of the image of page 1:
two calls of `fetch` are in progress. -/
theorem start_runs_page_fetch_beside_workers :
    (exCrawler "images" 1).maxWorkers = 1
    ∧ (Sys.run (exCrawler "images" 1) (exOneSite 1) exBusyRun (Sys.init [])).map
        (fun s => (s.enum, s.pool.workers, s.fetchesInProgress))
      = some (EnumPc.fetching 2, [Worker.fetching (exItem "http://h/1.jpg" "a1")], 2) :=
  ⟨by decide, by decide⟩

end Kona
